import Mathlib

/-!
# One-bit AVR synthesizer: a shallow embedding of `1bitsynth.c` and `tiasnd.c`

The C globals of `src/1bitsynth.c` become the fields of one record `State`;
every C function becomes a function on `State`.  The two static registers of
`src/tiasnd.c` form the record `TiaState`.  Machine integers are natural
numbers, and every place where the 8-bit or 16-bit width of the AVR matters is
written out with an explicit `% 256` or `% 65536` (on the AVR `int` and
`unsigned int` are 16 bits wide, so a `uint8_t` operand combined with a
`uint16_t` one is computed modulo `2 ^ 16`).
-/

namespace OneBitSynth

/-! ## Bit helpers (`set_bit`, `clear_bit`, `_BV`) -/

/-- The macro `_BV(b)`, the mask with only bit `b` set. -/
def _BV (b : Nat) : Nat := 1 <<< b

/-- The macro `set_bit(v,b)`, that is `v |= _BV(b)`. -/
def set_bit (v b : Nat) : Nat := v ||| _BV b

/-- The macro `clear_bit(v,b)`, that is `v &= ~_BV(b)` on an 8-bit port register. -/
def clear_bit (v b : Nat) : Nat := v &&& (0xFF ^^^ _BV b)

/-- Value (0 or 1) of bit `b` of a register. -/
def pin (v b : Nat) : Nat := (v >>> b) &&& 1

def AUDIO_PIN : Nat := 0
def LFO_LED_PIN : Nat := 2
def ENV_LED_PIN : Nat := 3
def PWR_LED_PIN : Nat := 4

def PITCH_KNOB : Fin 9 := 4
def LFO_FREQ_KNOB : Fin 9 := 3
def LFO_DEPTH_KNOB : Fin 9 := 2
def ENV_FREQ_KNOB : Fin 9 := 6
def ENV_WIDTH_KNOB : Fin 9 := 1
def AUDIO_WF_KNOB : Fin 9 := 7
def LFO_WF_KNOB : Fin 9 := 0

/-- Wrap-around subtraction of two `uint16_t` values. -/
def sub16 (a b : Nat) : Nat := (a + 65536 - b % 65536) % 65536

/-- Unary minus on a `uint16_t` value. -/
def neg16 (a : Nat) : Nat := (65536 - a % 65536) % 65536

/-! ## Tables -/

/-- The table `waveforms[9]` of 16-bit oscillator patterns. -/
def waveforms : List Nat :=
  [0b1100000000000000,
   0b1111111100000000,
   0b1110111111101111,
   0b1011011011011011,
   0b0010100001110110,
   0b1010101011010101,
   0b1010101010101010,
   0b0000000000000000,
   0b0000000000000000]

/-- The table `freqvals[128]` of timer compare values per MIDI note. -/
def freqvals : List Nat :=
  [65535,65535,65535,65535,65535,65535,64865,61224,
   57788,54544,51483,48593,45866,43292,40862,38568,
   36404,34360,32432,30612,28893,27272,25741,24296,
   22933,21645,20430,19284,18201,17180,16215,15305,
   14446,13635,12870,12148,11466,10822,10215,9641,
   9100,8589,8107,7652,7223,6817,6435,6073,
   5732,5411,5107,4820,4550,4294,4053,3826,
   3611,3408,3217,3036,2866,2705,2553,2410,
   2274,2147,2026,1912,1805,1704,1608,1518,
   1432,1352,1276,1204,1137,1073,1013,956,
   902,851,803,758,716,675,637,602,
   568,536,506,477,450,425,401,379,
   357,337,318,300,283,267,252,238,
   225,212,200,189,178,168,159,150,
   141,133,126,119,112,106,100,94,
   89,84,79,74,70,66,62,59]

/-! ## Program state -/

/-- The struct `knob_t`. -/
structure knob_t where
  val : Nat
  accum : Nat

/-- All globals of `1bitsynth.c`, the function-local static `lfsr` of
`lfsr_rand`, and the three hardware registers the modelled code touches
(`PORTB`, `TCNT1`, `OCR1A`). -/
structure State where
  knobs : Fin 9 → knob_t
  pitch : Nat
  lfofreq : Nat
  lfodepth : Nat
  envfreq : Nat
  envwidth : Nat
  wavenum : Nat
  lfowavenum : Nat
  usemidi : Nat
  noteon : Nat
  midimode : Nat
  midibytesleft : Int
  midilastnote : Nat
  midibuffer0 : Nat
  midibuffer1 : Nat
  outpitch : Nat
  lfotimer : Nat
  lfoval : Nat
  lfodelta : Nat
  envtimer : Nat
  envval : Nat
  waveform : Nat
  ledpulse : Nat
  lfsr : Nat
  PORTB : Nat
  TCNT1 : Nat
  OCR1A : Nat

/-- The values of the C initialisers (the state at the start of `main`);
hardware registers start at 0. -/
def boot : State where
  knobs := fun _ => ⟨0, 0⟩
  pitch := 400
  lfofreq := 0
  lfodepth := 0
  envfreq := 0
  envwidth := 0
  wavenum := 0
  lfowavenum := 8
  usemidi := 0
  noteon := 1
  midimode := 0
  midibytesleft := 0
  midilastnote := 0xFF
  midibuffer0 := 0
  midibuffer1 := 0
  outpitch := 0
  lfotimer := 0
  lfoval := 0
  lfodelta := 0
  envtimer := 0
  envval := 1
  waveform := 0
  ledpulse := 0
  lfsr := 0xACE1
  PORTB := 0
  TCNT1 := 0
  OCR1A := 0

/-! ## `lfsr_rand` -/

/-- The right-hand side `(lfsr >> 1) ^ (-(lfsr & 1u) & 0xB400u)`, in 16-bit
unsigned arithmetic. -/
def lfsr_next (lfsr : Nat) : Nat :=
  (lfsr >>> 1) ^^^ (neg16 (lfsr &&& 1) &&& 0xB400)

/-- The function `lfsr_rand`: stores the next generator state and returns it. -/
def lfsr_rand (s : State) : Nat × State :=
  let v := lfsr_next s.lfsr
  (v, { s with lfsr := v })

/-! ## `ISR(TIMER1_COMPA_vect)` -/

/-- First part of the timer handler (source lines 237-248): computes
`shiftout` (a `uint8_t`) and advances the oscillator register or the
pseudo-random generator. -/
def TIMER1_COMPA_shiftout (s : State) : Nat × State :=
  if s.wavenum ≠ 7 then
    let shiftout := (s.waveform &&& 1) % 256
    let w := s.waveform >>> 1
    let w := if shiftout ≠ 0 then (w ||| (1 <<< 15)) % 65536 else w
    (shiftout, { s with waveform := w })
  else
    let r := lfsr_rand s
    ((r.1 &&& 1) % 256, r.2)

/-- The handler `ISR(TIMER1_COMPA_vect)`: gate the bit with `envval` and
`noteon` and drive the audio pin. -/
def TIMER1_COMPA_vect (s : State) : State :=
  let r := TIMER1_COMPA_shiftout s
  let shiftout := r.1
  let s1 := r.2
  let shiftout := shiftout &&& s1.envval
  let shiftout := shiftout &&& s1.noteon
  if shiftout ≠ 0 then
    { s1 with PORTB := set_bit s1.PORTB AUDIO_PIN }
  else
    { s1 with PORTB := clear_bit s1.PORTB AUDIO_PIN }

/-- The bit driven on the audio output line. -/
def audio_out (s : State) : Nat := pin s.PORTB AUDIO_PIN

/-! ## `update_pitch` -/

/-- The value `newpitch` computed at the start of `update_pitch`; all
operands are `uint16_t` or `unsigned` constants, so every operation wraps
modulo `2 ^ 16`. -/
def update_pitch_newpitch (s : State) : Nat :=
  if s.usemidi ≠ 0 then sub16 s.pitch ((s.lfoval * 4) % 65536)
  else (200 + (sub16 s.pitch s.lfoval * 4) % 65536) % 65536

/-- The function `update_pitch`. -/
def update_pitch (s : State) : State :=
  let newpitch := update_pitch_newpitch s
  if newpitch ≠ s.outpitch then
    let s1 := { s with outpitch := newpitch }
    let s2 := if s1.TCNT1 > s1.outpitch then { s1 with TCNT1 := 0 } else s1
    { s2 with OCR1A := s2.outpitch }
  else s

/-! ## `update_lfo` -/

/-- The `switch (lfowavenum)` of `update_lfo`.  The product
`lfotimer*lfodelta` is an `unsigned int` (16 bits).  The result is `none`
exactly when the random waveform evaluates `lfsr_rand() % lfodepth` with
`lfodepth = 0`. -/
def update_lfo_switch (s : State) : Option State :=
  match s.lfowavenum with
  | 0 =>
    let s1 := { s with lfoval := ((s.lfotimer * s.lfodelta) % 65536) >>> 8 }
    if s1.lfotimer ≥ s1.lfofreq / 2 then
      some { s1 with lfoval := sub16 s1.lfodepth s1.lfoval }
    else some s1
  | 1 => some { s with lfoval := ((s.lfotimer * s.lfodelta) % 65536) >>> 8 }
  | 2 => some { s with lfoval := sub16 s.lfodepth (((s.lfotimer * s.lfodelta) % 65536) >>> 8) }
  | 3 => some { s with lfoval := if s.lfotimer ≥ s.lfofreq / 2 then s.lfodepth else 0 }
  | 4 => some { s with lfoval := if s.lfotimer < s.lfofreq / 4 then s.lfodepth else 0 }
  | 5 =>
    if s.lfotimer < s.lfofreq / 2 then
      some { s with lfoval := ((s.lfotimer * s.lfodelta) % 65536) >>> 7 }
    else some { s with lfoval := 0 }
  | 6 =>
    if s.lfotimer < s.lfofreq / 2 then
      some { s with lfoval := sub16 s.lfodepth (((s.lfotimer * s.lfodelta) % 65536) >>> 7) }
    else some { s with lfoval := 0 }
  | 7 =>
    if s.lfotimer = 0 then
      let r := lfsr_rand s
      if r.2.lfodepth = 0 then none
      else some { r.2 with lfoval := r.1 % r.2.lfodepth }
    else some s
  | _ => some s

/-- The rest of `update_lfo` after the switch: the LFO indicator and the
phase counter (a `uint8_t`). -/
def update_lfo_tail (s : State) : State :=
  let s1 :=
    if s.lfotimer < s.lfofreq / 2 then { s with PORTB := set_bit s.PORTB LFO_LED_PIN }
    else { s with PORTB := clear_bit s.PORTB LFO_LED_PIN }
  let s2 := { s1 with lfotimer := (s1.lfotimer + 1) % 256 }
  if s2.lfotimer ≥ s2.lfofreq then { s2 with lfotimer := 0 } else s2

/-- The function `update_lfo`. -/
def update_lfo (s : State) : Option State :=
  (update_lfo_switch s).map update_lfo_tail

/-! ## `update_env` -/

/-- The function `update_env`. -/
def update_env (s : State) : State :=
  let s1 := { s with envtimer := (s.envtimer + 1) % 256 }
  let s2 := if s1.envtimer ≥ s1.envfreq then { s1 with envtimer := 0 } else s1
  let s3 := { s2 with envval := if s2.envtimer ≤ s2.envwidth then 1 else 0 }
  if s3.envval ≠ 0 then { s3 with PORTB := set_bit s3.PORTB ENV_LED_PIN }
  else { s3 with PORTB := clear_bit s3.PORTB ENV_LED_PIN }

/-! ## `update_synth_params` -/

/-- The function `update_synth_params`.  `newwavenum`, `newlfowavenum`,
`envfreq` and `envwidth` are `uint8_t` (truncated modulo 256); `lfofreq`,
`lfodepth` and `lfodelta` are `uint16_t`.  A read of `waveforms` past its
nine entries (an index the selector knob yields only for readings of 1152
and more) is rendered as 0. -/
def update_synth_params (s : State) : State :=
  let s1 := if s.usemidi = 0 then { s with pitch := (s.knobs PITCH_KNOB).val } else s
  let newwavenum := ((s1.knobs AUDIO_WF_KNOB).val >>> 7) % 256
  let s2 :=
    if newwavenum ≠ s1.wavenum then
      { s1 with wavenum := newwavenum, waveform := waveforms.getD newwavenum 0, ledpulse := 1 }
    else s1
  let newlfowavenum := ((s2.knobs LFO_WF_KNOB).val >>> 7) % 256
  let s3 :=
    if newlfowavenum ≠ s2.lfowavenum then
      { s2 with lfowavenum := newlfowavenum, ledpulse := 1 }
    else s2
  let s4 :=
    if s3.ledpulse ≠ 0 then
      { s3 with PORTB := clear_bit s3.PORTB PWR_LED_PIN, ledpulse := (s3.ledpulse + 255) % 256 }
    else { s3 with PORTB := set_bit s3.PORTB PWR_LED_PIN }
  let s5 := { s4 with lfofreq := ((s4.knobs LFO_FREQ_KNOB).val >>> 2) % 65536 }
  let s6 := { s5 with lfodepth := ((s5.knobs LFO_DEPTH_KNOB).val >>> 2) % 65536 }
  let s7 := { s6 with lfodelta :=
    if s6.lfofreq ≠ 0 then ((s6.lfodepth * 256) % 65536) / s6.lfofreq else 0 }
  let s8 := { s7 with envfreq := ((s7.knobs ENV_FREQ_KNOB).val >>> 2) % 256 }
  { s8 with envwidth := ((s8.knobs ENV_WIDTH_KNOB).val >>> 2) % 256 }

/-! ## Iterated generator calls and an executable orbit check -/

/-- The state after `n` successive calls of `lfsr_rand` (results discarded). -/
def lfsr_rand_calls (n : Nat) (s : State) : State :=
  (fun t => (lfsr_rand t).2)^[n] s

/-- Walks `n` generator steps from `cur`; fails as soon as a visited state
(the start included, the end excluded) equals `seed`, else returns the end. -/
def orbit_avoids (seed : Nat) : Nat → Nat → Option Nat
  | 0, cur => some cur
  | n + 1, cur => if cur = seed then none else orbit_avoids seed n (lfsr_next cur)

/-- Runs `m` consecutive walks of `len` steps each. -/
def orbit_avoids_blocks (seed len : Nat) : Nat → Nat → Option Nat
  | 0, cur => some cur
  | m + 1, cur => (orbit_avoids seed len cur).bind (orbit_avoids_blocks seed len m)

/-! ## Concrete knob settings used as test inputs -/

/-- Boot state with the LFO frequency knob at 8 (`lfofreq = 2`), the LFO depth
knob at 400 (`lfodepth = 100`), triangle selected and the LFO phase at 1. -/
def triangle_probe : State :=
  { boot with
    knobs := fun i =>
      if i = LFO_FREQ_KNOB then ⟨8, 0⟩ else if i = LFO_DEPTH_KNOB then ⟨400, 0⟩ else ⟨0, 0⟩
    lfowavenum := 0
    lfotimer := 1 }

/-- Boot state with the LFO waveform knob at 896 (selector 7, random) and
every other knob at 0, so that `lfodepth = 0`. -/
def random_probe : State :=
  { boot with knobs := fun i => if i = LFO_WF_KNOB then ⟨896, 0⟩ else ⟨0, 0⟩ }

/-- The local `newwavenum` of `update_synth_params`, a `uint8_t`: the audio
waveform index selected by the knobs. -/
def newwavenum (knobs : Fin 9 → knob_t) : Nat := ((knobs AUDIO_WF_KNOB).val >>> 7) % 256

/-- The local `newlfowavenum` of `update_synth_params`, a `uint8_t`: the LFO
waveform index selected by the knobs. -/
def newlfowavenum (knobs : Fin 9 → knob_t) : Nat := ((knobs LFO_WF_KNOB).val >>> 7) % 256

/-! ## `ISR(USART_RX_vect)` -/

def MIDI_OTHER : Nat := 0
def MIDI_NOTE_OFF : Nat := 1
def MIDI_NOTE_ON : Nat := 2

/-- The handler `ISR(USART_RX_vect)` for one received byte (`UDR0`, read into
a `uint8_t`).  The only table access, `pgm_read_word(freqvals+note)`, is
rendered with a checked lookup: the result is `none` exactly when the handler
reads `freqvals` at an index outside the table. -/
def USART_RX_vect (s : State) (UDR0 : Nat) : Option State :=
  let byte := UDR0 % 256
  if byte ≥ 0x80 then
    let s1 := { s with usemidi := 1 }
    if byte = 0x80 then
      some { s1 with midimode := MIDI_NOTE_OFF, midibytesleft := 2 }
    else if byte = 0x90 then
      some { s1 with midimode := MIDI_NOTE_ON, midibytesleft := 2 }
    else if byte = 0xFE then
      some s1
    else
      let s2 := if byte = 0xFC ∨ byte = 0xFF then { s1 with noteon := 0 } else s1
      some { s2 with midimode := MIDI_OTHER, midibytesleft := 0 }
  else
    let s1 :=
      if s.midibytesleft > 0 then
        { s with midibuffer0 := s.midibuffer1, midibuffer1 := byte,
                 midibytesleft := s.midibytesleft - 1 }
      else s
    if s1.midibytesleft ≤ 0 then
      let note := s1.midibuffer0
      if s1.midimode = MIDI_NOTE_OFF then
        let s2 :=
          if note = s1.midilastnote then { s1 with noteon := 0, midilastnote := 0xFF } else s1
        some { s2 with midibytesleft := 2 }
      else if s1.midimode = MIDI_NOTE_ON then
        if s1.midibuffer1 = 0 ∧ note = s1.midilastnote then
          some { s1 with noteon := 0, midilastnote := 0xFF, midibytesleft := 2 }
        else if s1.midibuffer1 ≠ 0 then
          match freqvals[note]? with
          | some v => some { s1 with noteon := 1, pitch := v, midilastnote := note,
                                     midibytesleft := 2 }
          | none => none
        else some { s1 with midibytesleft := 2 }
      else some s1
    else some s1

/-- The handler run once per byte of a received sequence, in order. -/
def receive : State → List Nat → Option State
  | s, [] => some s
  | s, b :: bs => (USART_RX_vect s b).bind (fun s1 => receive s1 bs)

/-! ## `tiasnd.c`: the two shift registers and the waveform table -/

/-- The file-level statics `sr4` and `sr5` of `tiasnd.c`, both `uint8_t`. -/
structure TiaState where
  sr4 : Nat
  sr5 : Nat
deriving DecidableEq

/-- The initial values `sr4 = 1`, `sr5 = 1`. -/
def tia_boot : TiaState := ⟨1, 1⟩

/-- The C expression `!!x`: 1 if `x` is nonzero, else 0. -/
def nz (x : Nat) : Nat := if x ≠ 0 then 1 else 0

/-- The C expression `!x`: 1 if `x` is zero, else 0. -/
def lnot (x : Nat) : Nat := if x = 0 then 1 else 0

/-- The C expression `x && y`. -/
def land (x y : Nat) : Nat := if x ≠ 0 ∧ y ≠ 0 then 1 else 0

/-- The function `shift4`. -/
def shift4 (t : TiaState) : TiaState :=
  { t with sr4 := ((t.sr4 <<< 1) ||| (nz (t.sr4 &&& 0x08) ^^^ nz (t.sr4 &&& 0x04))) &&& 0x0F }

/-- The function `shift5`. -/
def shift5 (t : TiaState) : TiaState :=
  { t with sr5 := ((t.sr5 <<< 1) ||| (nz (t.sr5 &&& 0x10) ^^^ nz (t.sr5 &&& 0x04))) &&& 0x1F }

/-- The function `div4_two`. -/
def div4_two (t : TiaState) : TiaState :=
  { t with sr4 := ((t.sr4 <<< 1) ||| lnot (t.sr4 &&& 0x01)) &&& 0x0F }

/-- The function `div4_six`: `sr4 = (~sr4 << 1) | (!(!(!(sr4 & 0x04) && (sr4 & 0x07))))`.
There is no mask here; the value is cut to the 8 bits of `sr4` by the
assignment.  `~sr4` is the complement of the promoted `int`; only its low 8
bits survive, so the 16-bit complement is used. -/
def div4_six (t : TiaState) : TiaState :=
  { t with sr4 :=
      (((0xFFFF ^^^ t.sr4) <<< 1)
        ||| lnot (lnot (land (lnot (t.sr4 &&& 0x04)) (t.sr4 &&& 0x07)))) % 256 }

/-- The function `wave_poly4` (TIA waveform 1). -/
def wave_poly4 (t : TiaState) : TiaState := shift4 t

/-- The function `wave_poly5poly4` (TIA waveform 3). -/
def wave_poly5poly4 (t : TiaState) : TiaState :=
  let t1 := shift5 t
  if t1.sr5 &&& 0x10 ≠ 0 then shift4 t1 else t1

/-- The function `wave_div2` (TIA waveforms 4 and 5). -/
def wave_div2 (t : TiaState) : TiaState := div4_two t

/-- The function `wave_div31div2` (TIA waveform 6). -/
def wave_div31div2 (t : TiaState) : TiaState :=
  let t1 := shift5 t
  if t1.sr5 &&& 0x0F = 0x08 then div4_two t1 else t1

/-- The function `wave_poly5div2` (TIA waveform 7). -/
def wave_poly5div2 (t : TiaState) : TiaState :=
  let t1 := shift5 t
  if t1.sr5 &&& 0x10 ≠ 0 then div4_two t1 else t1

/-- The function `wave_poly9` (TIA waveform 8); the first assignment to the
`uint8_t` `sr5` is unmasked and keeps 8 bits. -/
def wave_poly9 (t : TiaState) : TiaState :=
  let t1 := { t with sr5 :=
    ((t.sr5 <<< 1) ||| (nz (t.sr4 &&& 0x08) ^^^ nz (t.sr5 &&& 0x10))) % 256 }
  let t2 := { t1 with sr4 := ((t1.sr4 <<< 1) ||| nz (t1.sr5 &&& 0x20)) &&& 0x0F }
  { t2 with sr5 := t2.sr5 &&& 0x1F }

/-- The function `wave_poly5` (TIA waveform 9). -/
def wave_poly5 (t : TiaState) : TiaState :=
  let t1 := { t with sr5 :=
    ((t.sr5 <<< 1) ||| (nz (t.sr5 &&& 0x10) ^^^ nz (t.sr5 &&& 0x04))) % 256 }
  let t2 := { t1 with sr4 := ((t1.sr4 <<< 1) ||| nz (t1.sr5 &&& 0x20)) &&& 0x0F }
  { t2 with sr5 := t2.sr5 &&& 0x1F }

/-- The function `wave_poly5div6` (TIA waveform F). -/
def wave_poly5div6 (t : TiaState) : TiaState :=
  let t1 := shift5 t
  if t1.sr5 &&& 0x10 ≠ 0 then div4_six t1 else t1

/-- The table `wavefns[8]`. -/
def wavefns : List (TiaState → TiaState) :=
  [wave_poly4, wave_poly5poly4, wave_div2, wave_div31div2,
   wave_poly5div2, wave_poly9, wave_poly5, wave_poly5div6]

/-- The function `tia_out`: runs `wavefns[waveformnum & 0x07]` and returns
`!!(sr4 & 0x08)` together with the new registers. -/
def tia_out (waveformnum : Nat) (t : TiaState) : Nat × TiaState :=
  let t1 := (wavefns.getD (waveformnum &&& 0x07) id) t
  (nz (t1.sr4 &&& 0x08), t1)

/-- The registers after `n` successive calls `tia_out(waveformnum)`. -/
def tia_calls (waveformnum n : Nat) (t : TiaState) : TiaState :=
  (fun u => (tia_out waveformnum u).2)^[n] t

/-- Walks `n` poly9 steps from `cur`; fails as soon as a visited register pair
(the start included, the end excluded) equals `seed`, else returns the end. -/
def poly9_avoids (seed : TiaState) : Nat → TiaState → Option TiaState
  | 0, cur => some cur
  | n + 1, cur => if cur = seed then none else poly9_avoids seed n (wave_poly9 cur)

/-! ## `read_adc` and the sampling of one knob in `main` -/

def NUM_ADC_SAMPLES : Nat := 32

/-- The function `read_adc` on the knob it is given.  `adctimer` is the global
read by the function; `ADCL` and `ADCH` are the two 8-bit result registers of
the converter.  `val` is a `uint16_t`, `accum` a `uint32_t`. -/
def read_adc (adctimer ADCL ADCH : Nat) (k : knob_t) : knob_t :=
  let val := (ADCL % 256) % 65536
  let val := (val + ((ADCH % 256) <<< 8)) % 65536
  let k1 := { k with accum := (k.accum + val) % 4294967296 }
  if adctimer = 0 then
    { val := (k1.accum / NUM_ADC_SAMPLES) % 65536, accum := 0 }
  else k1

/-- One pass of the `for (;;)` loop of `main` as seen by a single knob:
`adctimer++; adctimer &= (NUM_ADC_SAMPLES-1);` (a `uint8_t`), then the one
`read_adc` call the pass makes for this knob.  Returns the new `adctimer`
and the knob. -/
def main_sample (adctimer ADCL ADCH : Nat) (k : knob_t) : Nat × knob_t :=
  let t := (adctimer + 1) % 256
  let t := t &&& (NUM_ADC_SAMPLES - 1)
  (t, read_adc t ADCL ADCH k)

/-- Successive passes of the loop for one knob, one `(ADCL, ADCH)` pair per
pass. -/
def main_samples : Nat → knob_t → List (Nat × Nat) → Nat × knob_t
  | t, k, [] => (t, k)
  | t, k, p :: rest => main_samples (main_sample t p.1 p.2 k).1 (main_sample t p.1 p.2 k).2 rest

/-! ## `update_synth_params` with the division checked -/

/-- The C division `a / b` on unsigned operands: undefined (`none`) for a zero
divisor. -/
def div16 (a b : Nat) : Option Nat := if b = 0 then none else some (a / b)

/-- The function `update_synth_params` once more, statement by statement, with
the division of `lfodelta = (lfofreq) ? (lfodepth*256U) / lfofreq : 0`
rendered by `div16`: the result is `none` exactly when the function divides by
zero. -/
def update_synth_params_checked (s : State) : Option State :=
  let s1 := if s.usemidi = 0 then { s with pitch := (s.knobs PITCH_KNOB).val } else s
  let newwavenum := ((s1.knobs AUDIO_WF_KNOB).val >>> 7) % 256
  let s2 :=
    if newwavenum ≠ s1.wavenum then
      { s1 with wavenum := newwavenum, waveform := waveforms.getD newwavenum 0, ledpulse := 1 }
    else s1
  let newlfowavenum := ((s2.knobs LFO_WF_KNOB).val >>> 7) % 256
  let s3 :=
    if newlfowavenum ≠ s2.lfowavenum then
      { s2 with lfowavenum := newlfowavenum, ledpulse := 1 }
    else s2
  let s4 :=
    if s3.ledpulse ≠ 0 then
      { s3 with PORTB := clear_bit s3.PORTB PWR_LED_PIN, ledpulse := (s3.ledpulse + 255) % 256 }
    else { s3 with PORTB := set_bit s3.PORTB PWR_LED_PIN }
  let s5 := { s4 with lfofreq := ((s4.knobs LFO_FREQ_KNOB).val >>> 2) % 65536 }
  let s6 := { s5 with lfodepth := ((s5.knobs LFO_DEPTH_KNOB).val >>> 2) % 65536 }
  let quotient :=
    if s6.lfofreq ≠ 0 then div16 ((s6.lfodepth * 256) % 65536) s6.lfofreq else some 0
  match quotient with
  | none => none
  | some d =>
    let s7 := { s6 with lfodelta := d }
    let s8 := { s7 with envfreq := ((s7.knobs ENV_FREQ_KNOB).val >>> 2) % 256 }
    some { s8 with envwidth := ((s8.knobs ENV_WIDTH_KNOB).val >>> 2) % 256 }

/-! # Theorems -/

/-! ## Bit-level facts -/

theorem or_one_mod_two (v : Nat) : (v ||| 1) % 2 = 1 := by
  rw [← Nat.and_one_is_mod, Nat.and_distrib_right]
  simp only [Nat.and_one_is_mod]
  rcases Nat.mod_two_eq_zero_or_one v with h | h <;> rw [h] <;> decide

theorem and_254_mod_two (v : Nat) : (v &&& 254) % 2 = 0 := by
  rw [← Nat.and_one_is_mod, Nat.and_assoc]
  have h : (254 &&& 1 : Nat) = 0 := by decide
  rw [h, Nat.and_zero]

theorem pin_set_bit_zero (v : Nat) : pin (set_bit v 0) 0 = 1 := by
  simp only [pin, set_bit, _BV, Nat.shiftRight_zero, Nat.shiftLeft_zero, Nat.and_one_is_mod]
  exact or_one_mod_two v

theorem pin_clear_bit_zero (v : Nat) : pin (clear_bit v 0) 0 = 0 := by
  simp only [pin, clear_bit, _BV, Nat.shiftRight_zero, Nat.shiftLeft_zero, Nat.and_one_is_mod]
  have h : (0xFF ^^^ 1 : Nat) = 254 := by decide
  rw [h]
  exact and_254_mod_two v

theorem and_one_cases (x : Nat) : x &&& 1 = 0 ∨ x &&& 1 = 1 := by
  rw [Nat.and_one_is_mod]; omega

/-! ## The pseudo-random generator step -/

theorem lfsr_next_even (x : Nat) (h : x % 2 = 0) : lfsr_next x = x >>> 1 := by
  unfold lfsr_next neg16
  rw [Nat.and_one_is_mod, h]
  simp

theorem lfsr_next_odd (x : Nat) (h : x % 2 = 1) : lfsr_next x = (x >>> 1) ^^^ 0xB400 := by
  unfold lfsr_next neg16
  rw [Nat.and_one_is_mod, h]
  have h2 : ((65536 - 1 % 65536) % 65536 &&& 0xB400 : Nat) = 0xB400 := by decide
  rw [h2]

theorem lfsr_next_lt (x : Nat) (h : x < 65536) : lfsr_next x < 65536 := by
  have h1 : x >>> 1 < 2 ^ 16 := by
    rw [Nat.shiftRight_eq_div_pow]; omega
  rcases Nat.mod_two_eq_zero_or_one x with h0 | h0
  · rw [lfsr_next_even x h0]; exact h1
  · rw [lfsr_next_odd x h0]
    exact Nat.xor_lt_two_pow h1 (by decide)

/-- C3: one call of `lfsr_rand` stores and returns `(s >> 1) XOR 0xB400` when
bit 0 of the generator state `s` is 1 and `s >> 1` when it is 0; the 16-bit
expression `(s >> 1) ^ (-(s & 1) & 0xB400)` equals this case split, and no
other variable changes. -/
theorem lfsr_rand_case_split (s : State) :
    (lfsr_rand s).1 = (if s.lfsr % 2 = 1 then (s.lfsr >>> 1) ^^^ 0xB400 else s.lfsr >>> 1)
    ∧ (lfsr_rand s).2.lfsr = (lfsr_rand s).1
    ∧ (lfsr_rand s).2 = { s with lfsr := (lfsr_rand s).1 }
    ∧ lfsr_next s.lfsr
        = (if s.lfsr % 2 = 1 then (s.lfsr >>> 1) ^^^ 0xB400 else s.lfsr >>> 1) := by
  have key : lfsr_next s.lfsr
      = (if s.lfsr % 2 = 1 then (s.lfsr >>> 1) ^^^ 0xB400 else s.lfsr >>> 1) := by
    rcases Nat.mod_two_eq_zero_or_one s.lfsr with h | h
    · rw [lfsr_next_even _ h, if_neg (by omega)]
    · rw [lfsr_next_odd _ h, if_pos h]
  exact ⟨key, rfl, rfl, key⟩

/-! ## The audio tick -/

theorem shiftout_fixed (s : State) (hn : s.wavenum ≠ 7) :
    TIMER1_COMPA_shiftout s
      = (s.waveform &&& 1,
         { s with waveform :=
            if s.waveform &&& 1 ≠ 0 then ((s.waveform >>> 1) ||| (1 <<< 15)) % 65536
            else s.waveform >>> 1 }) := by
  have h256 : (s.waveform &&& 1) % 256 = s.waveform &&& 1 := by
    rcases and_one_cases s.waveform with h | h <;> rw [h]
  unfold TIMER1_COMPA_shiftout
  rw [if_pos hn]
  simp only [h256]

theorem shiftout_noise (s : State) (hn : s.wavenum = 7) :
    TIMER1_COMPA_shiftout s = (lfsr_next s.lfsr &&& 1, { s with lfsr := lfsr_next s.lfsr }) := by
  have h256 : (lfsr_next s.lfsr &&& 1) % 256 = lfsr_next s.lfsr &&& 1 := by
    rcases and_one_cases (lfsr_next s.lfsr) with h | h <;> rw [h]
  unfold TIMER1_COMPA_shiftout
  rw [if_neg (by simpa using hn)]
  simp only [lfsr_rand, h256]

/-- C1: in fixed-pattern mode (`wavenum != 7`) one run of the timer handler
leaves the 16-bit oscillator register rotated right circularly by one bit,
`(w >> 1) | ((w & 1) << 15)`, the generator bit before gating is the bit
shifted out, `w & 1`, and the pseudo-random generator state is unchanged. -/
theorem timer_tick_fixed_pattern (s : State) (hw : s.waveform < 65536) (hn : s.wavenum ≠ 7) :
    (TIMER1_COMPA_vect s).waveform = (s.waveform >>> 1) ||| ((s.waveform &&& 1) <<< 15)
    ∧ (TIMER1_COMPA_shiftout s).1 = s.waveform &&& 1
    ∧ (TIMER1_COMPA_vect s).lfsr = s.lfsr
    ∧ (TIMER1_COMPA_vect s).waveform < 65536 := by
  have hrot : (if s.waveform &&& 1 ≠ 0 then ((s.waveform >>> 1) ||| (1 <<< 15)) % 65536
      else s.waveform >>> 1) = (s.waveform >>> 1) ||| ((s.waveform &&& 1) <<< 15) := by
    rcases and_one_cases s.waveform with h | h
    · rw [h]; simp
    · rw [h, if_pos (by decide)]
      apply Nat.mod_eq_of_lt
      have h1 : s.waveform >>> 1 < 2 ^ 16 := by
        rw [Nat.shiftRight_eq_div_pow]; omega
      exact Nat.or_lt_two_pow h1 (by decide)
  have hlt : (s.waveform >>> 1) ||| ((s.waveform &&& 1) <<< 15) < 65536 := by
    have h1 : s.waveform >>> 1 < 2 ^ 16 := by
      rw [Nat.shiftRight_eq_div_pow]; omega
    have h2 : (s.waveform &&& 1) <<< 15 < 2 ^ 16 := by
      rcases and_one_cases s.waveform with h | h <;> rw [h] <;> decide
    exact Nat.or_lt_two_pow h1 h2
  have hw2 : (TIMER1_COMPA_vect s).waveform
      = (s.waveform >>> 1) ||| ((s.waveform &&& 1) <<< 15) := by
    unfold TIMER1_COMPA_vect
    rw [shiftout_fixed s hn]
    dsimp only
    split <;> exact hrot
  have hl : (TIMER1_COMPA_vect s).lfsr = s.lfsr := by
    unfold TIMER1_COMPA_vect
    rw [shiftout_fixed s hn]
    dsimp only
    split <;> rfl
  refine ⟨hw2, ?_, hl, ?_⟩
  · rw [shiftout_fixed s hn]
  · rw [hw2]; exact hlt

/-- Witness of C1 at the boot state with the first pattern loaded. -/
theorem timer_tick_fixed_pattern_witness :
    (TIMER1_COMPA_vect { boot with waveform := 0xC000 }).waveform = 0x6000
    ∧ (TIMER1_COMPA_shiftout { boot with waveform := 0xC000 }).1 = 0 := by
  have h := timer_tick_fixed_pattern { boot with waveform := 0xC000 } (by decide) (by decide)
  exact ⟨h.1.trans (by decide), h.2.1.trans (by decide)⟩

theorem gate_and (b e n : Nat) (hb : b = 0 ∨ b = 1) (he : e = 0 ∨ e = 1) (hn : n = 0 ∨ n = 1) :
    (b &&& e &&& n ≠ 0) ↔ (b = 1 ∧ e = 1 ∧ n = 1) := by
  rcases hb with rfl | rfl <;> rcases he with rfl | rfl <;> rcases hn with rfl | rfl <;> decide

theorem timer_tick_audio (s : State) :
    audio_out (TIMER1_COMPA_vect s)
      = if (TIMER1_COMPA_shiftout s).1 &&& s.envval &&& s.noteon ≠ 0 then 1 else 0 := by
  have he : (TIMER1_COMPA_shiftout s).2.envval = s.envval := by
    unfold TIMER1_COMPA_shiftout lfsr_rand; split <;> rfl
  have hn : (TIMER1_COMPA_shiftout s).2.noteon = s.noteon := by
    unfold TIMER1_COMPA_shiftout lfsr_rand; split <;> rfl
  unfold TIMER1_COMPA_vect audio_out
  simp only [he, hn, AUDIO_PIN]
  split
  · exact pin_set_bit_zero _
  · exact pin_clear_bit_zero _

/-- C2: with `envval` and `noteon` in {0,1}, after the timer handler the audio
output bit is 1 iff the generator bit is 1 and `envval = 1` and `noteon = 1`.
The generator bit is bit 0 of the old oscillator register when `wavenum != 7`
and bit 0 of the new, once-advanced generator state when `wavenum = 7`; the
output is always 0 or 1, and `noteon = 0` or `envval = 0` forces it to 0. -/
theorem timer_tick_output_gating (s : State)
    (he : s.envval = 0 ∨ s.envval = 1) (hn : s.noteon = 0 ∨ s.noteon = 1) :
    (audio_out (TIMER1_COMPA_vect s) = 1 ↔
      ((if s.wavenum ≠ 7 then s.waveform &&& 1 else (TIMER1_COMPA_vect s).lfsr &&& 1) = 1
        ∧ s.envval = 1 ∧ s.noteon = 1))
    ∧ (s.wavenum = 7 → (TIMER1_COMPA_vect s).lfsr = lfsr_next s.lfsr)
    ∧ (audio_out (TIMER1_COMPA_vect s) = 0 ∨ audio_out (TIMER1_COMPA_vect s) = 1)
    ∧ (s.noteon = 0 ∨ s.envval = 0 → audio_out (TIMER1_COMPA_vect s) = 0) := by
  have hl : s.wavenum = 7 → (TIMER1_COMPA_vect s).lfsr = lfsr_next s.lfsr := by
    intro h7
    unfold TIMER1_COMPA_vect
    rw [shiftout_noise s h7]
    dsimp only
    split <;> rfl
  have hg : (TIMER1_COMPA_shiftout s).1
      = (if s.wavenum ≠ 7 then s.waveform &&& 1 else (TIMER1_COMPA_vect s).lfsr &&& 1) := by
    by_cases h7 : s.wavenum = 7
    · rw [if_neg (by simpa using h7), hl h7, shiftout_noise s h7]
    · rw [if_pos h7, shiftout_fixed s h7]
  have hb : (TIMER1_COMPA_shiftout s).1 = 0 ∨ (TIMER1_COMPA_shiftout s).1 = 1 := by
    rw [hg]; split <;> exact and_one_cases _
  have hiff := gate_and _ _ _ hb he hn
  have ha := timer_tick_audio s
  refine ⟨?_, hl, ?_, ?_⟩
  · rw [ha, ← hg, ← hiff]
    split <;> simp_all
  · rw [ha]; split
    · right; rfl
    · left; rfl
  · intro h0
    rw [ha, if_neg]
    rw [hiff]
    rcases h0 with h0 | h0 <;> omega

/-- Witness of C2: fixed-pattern mode with bit 0 of the register set and both
gates open drives the output high. -/
theorem timer_tick_output_gating_witness :
    audio_out (TIMER1_COMPA_vect { boot with waveform := 1 }) = 1 :=
  (timer_tick_output_gating { boot with waveform := 1 } (Or.inr rfl) (Or.inr rfl)).1.mpr
    ⟨by decide, rfl, rfl⟩

/-! ## Nonzero states of the generator -/

theorem lfsr_next_zero : lfsr_next 0 = 0 := by decide

theorem lfsr_no_odd_fixed (s : Nat) (hs : s < 65536) (hodd : s % 2 = 1) :
    (s >>> 1) ^^^ 0xB400 ≠ s := by
  intro heq
  have hb : ∀ i, (s.testBit (i + 1) ^^ (0xB400 : Nat).testBit i) = s.testBit i := by
    intro i
    have h := congrArg (fun x => Nat.testBit x i) heq
    simp only [Nat.testBit_xor, Nat.testBit_shiftRight] at h
    rw [Nat.add_comm] at h
    exact h
  have h16 : s.testBit 16 = false := Nat.testBit_lt_two_pow (by simpa using hs)
  have h0 : s.testBit 0 = true := by
    rw [Nat.testBit_zero]; simp [hodd]
  have e15 := hb 15
  have e14 := hb 14
  have e13 := hb 13
  have e12 := hb 12
  have e11 := hb 11
  have e10 := hb 10
  have e9 := hb 9
  have e8 := hb 8
  have e7 := hb 7
  have e6 := hb 6
  have e5 := hb 5
  have e4 := hb 4
  have e3 := hb 3
  have e2 := hb 2
  have e1 := hb 1
  have e0 := hb 0
  have t : ∀ i, i < 16 →
      (0xB400 : Nat).testBit i = decide (i = 10 ∨ i = 12 ∨ i = 13 ∨ i = 15) := by
    decide
  rw [t _ (by decide)] at e0 e1 e2 e3 e4 e5 e6 e7 e8 e9 e10 e11 e12 e13 e14 e15
  simp only [h16, Nat.reduceEqDiff, Nat.reduceAdd, or_self, or_false, or_true, false_or,
    decide_False, decide_True, Bool.xor_false, Bool.xor_true, Bool.false_xor,
    Bool.not_false] at e0 e1 e2 e3 e4 e5 e6 e7 e8 e9 e10 e11 e12 e13 e14 e15
  simp_all

theorem lfsr_next_ne_zero (x : Nat) (h0 : 0 < x) (h : x < 65536) : lfsr_next x ≠ 0 := by
  rcases Nat.mod_two_eq_zero_or_one x with he | ho
  · rw [lfsr_next_even x he, Nat.shiftRight_eq_div_pow]; omega
  · rw [lfsr_next_odd x ho]
    intro hz
    have h1 := Nat.xor_eq_zero.mp hz
    rw [Nat.shiftRight_eq_div_pow] at h1
    omega

theorem lfsr_next_ne_self (x : Nat) (h0 : 0 < x) (h : x < 65536) : lfsr_next x ≠ x := by
  rcases Nat.mod_two_eq_zero_or_one x with he | ho
  · rw [lfsr_next_even x he, Nat.shiftRight_eq_div_pow]; omega
  · rw [lfsr_next_odd x ho]
    exact lfsr_no_odd_fixed x h ho

theorem lfsr_rand_calls_lfsr (n : Nat) (s : State) :
    (lfsr_rand_calls n s).lfsr = lfsr_next^[n] s.lfsr := by
  induction n with
  | zero => rfl
  | succ n ih =>
    unfold lfsr_rand_calls at ih ⊢
    rw [Function.iterate_succ_apply', Function.iterate_succ_apply', ← ih]
    rfl

theorem lfsr_iterate_range (a : Nat) (h0 : 0 < a) (h : a < 65536) (n : Nat) :
    0 < lfsr_next^[n] a ∧ lfsr_next^[n] a < 65536 := by
  induction n with
  | zero => exact ⟨h0, h⟩
  | succ n ih =>
    rw [Function.iterate_succ_apply']
    exact ⟨Nat.pos_of_ne_zero (lfsr_next_ne_zero _ ih.1 ih.2), lfsr_next_lt _ ih.2⟩

/-- C4: for every nonzero 16-bit generator state `s` the next state is
nonzero (and 16-bit) and differs from `s`, while the zero state is a fixed
point; hence from the boot seed 0xACE1 the state is nonzero after any number
of calls of `lfsr_rand`. -/
theorem lfsr_nonzero_invariant :
    (∀ s, 0 < s → s < 65536 →
      lfsr_next s ≠ 0 ∧ lfsr_next s ≠ s ∧ lfsr_next s < 65536)
    ∧ lfsr_next 0 = 0
    ∧ boot.lfsr = 0xACE1
    ∧ (∀ (st : State) (n : Nat), st.lfsr = 0xACE1 → (lfsr_rand_calls n st).lfsr ≠ 0) := by
  refine ⟨fun s h0 h => ⟨lfsr_next_ne_zero s h0 h, lfsr_next_ne_self s h0 h, lfsr_next_lt s h⟩,
    lfsr_next_zero, rfl, ?_⟩
  intro st n hst
  rw [lfsr_rand_calls_lfsr, hst]
  exact Nat.ne_of_gt (lfsr_iterate_range 0xACE1 (by decide) (by decide) n).1

/-- Witness of C4 at the boot seed: its successor is nonzero and different. -/
theorem lfsr_nonzero_invariant_witness :
    lfsr_next 0xACE1 ≠ 0 ∧ lfsr_next 0xACE1 ≠ 0xACE1 ∧ lfsr_next 0xACE1 < 65536 :=
  lfsr_nonzero_invariant.1 0xACE1 (by decide) (by decide)

/-! ## Maximal length of the generator -/

theorem orbit_avoids_sound (seed : Nat) :
    ∀ n cur c, orbit_avoids seed n cur = some c →
      c = lfsr_next^[n] cur ∧ ∀ k, k < n → lfsr_next^[k] cur ≠ seed := by
  intro n
  induction n with
  | zero =>
    intro cur c h
    simp only [orbit_avoids, Option.some.injEq] at h
    exact ⟨h.symm, fun k hk => absurd hk (Nat.not_lt_zero k)⟩
  | succ n ih =>
    intro cur c h
    simp only [orbit_avoids] at h
    split at h
    · cases h
    · rename_i hne
      obtain ⟨h1, h2⟩ := ih (lfsr_next cur) c h
      refine ⟨by rw [Function.iterate_succ_apply]; exact h1, ?_⟩
      intro k hk
      cases k with
      | zero => exact hne
      | succ j =>
        rw [Function.iterate_succ_apply]
        exact h2 j (by omega)

theorem orbit_avoids_blocks_sound (seed len : Nat) :
    ∀ m cur c, orbit_avoids_blocks seed len m cur = some c →
      c = lfsr_next^[len * m] cur ∧ ∀ k, k < len * m → lfsr_next^[k] cur ≠ seed := by
  intro m
  induction m with
  | zero =>
    intro cur c h
    simp only [orbit_avoids_blocks, Option.some.injEq] at h
    exact ⟨by simpa using h.symm, fun k hk => by omega⟩
  | succ m ih =>
    intro cur c h
    simp only [orbit_avoids_blocks, Option.bind_eq_some] at h
    obtain ⟨c1, hc1, hc⟩ := h
    obtain ⟨e1, a1⟩ := orbit_avoids_sound seed len cur c1 hc1
    obtain ⟨e2, a2⟩ := ih c1 c hc
    constructor
    · rw [e2, e1, ← Function.iterate_add_apply, Nat.mul_succ]
    · intro k hk
      by_cases hlt : k < len
      · exact a1 k hlt
      · have hk2 : k = (k - len) + len := by omega
        rw [hk2, Function.iterate_add_apply, ← e1]
        apply a2
        rw [Nat.mul_succ] at hk
        omega

theorem orbit_check :
    (orbit_avoids_blocks 0xACE1 255 256 (lfsr_next 0xACE1)).bind (orbit_avoids 0xACE1 254)
      = some 0xACE1 := by
  decide!

theorem seed_period : lfsr_next^[65535] 0xACE1 = 0xACE1
    ∧ ∀ n, 1 ≤ n → n < 65535 → lfsr_next^[n] 0xACE1 ≠ 0xACE1 := by
  have h := orbit_check
  rw [Option.bind_eq_some] at h
  obtain ⟨c1, hc1, hc⟩ := h
  obtain ⟨e1, a1⟩ := orbit_avoids_blocks_sound _ _ _ _ _ hc1
  obtain ⟨e2, a2⟩ := orbit_avoids_sound _ _ _ _ hc
  constructor
  · rw [e1, ← Function.iterate_add_apply, ← Function.iterate_succ_apply] at e2
    exact e2.symm
  · intro n h1 h2
    obtain ⟨j, rfl⟩ : ∃ j, n = j + 1 := ⟨n - 1, by omega⟩
    rw [Function.iterate_succ_apply]
    by_cases hlt : j < 255 * 256
    · exact a1 j hlt
    · have hj : j = (j - 255 * 256) + 255 * 256 := by omega
      rw [hj, Function.iterate_add_apply, ← e1]
      apply a2
      omega

theorem seed_minimalPeriod : Function.minimalPeriod lfsr_next 0xACE1 = 65535 := by
  obtain ⟨hp, hm⟩ := seed_period
  have hper : Function.IsPeriodicPt lfsr_next 65535 0xACE1 := hp
  have hle := Function.IsPeriodicPt.minimalPeriod_le (by decide) hper
  have hpos := Function.IsPeriodicPt.minimalPeriod_pos (by decide) hper
  by_contra hne
  exact hm _ hpos (by omega) Function.iterate_minimalPeriod

theorem orbit_covers (t : Nat) (h0 : 0 < t) (h : t < 65536) :
    ∃ k, k < 65535 ∧ lfsr_next^[k] 0xACE1 = t := by
  have hinj : Set.InjOn (fun k => lfsr_next^[k] 0xACE1) (Finset.range 65535 : Finset Nat) := by
    intro i hi j hj hij
    have hi2 : i < Function.minimalPeriod lfsr_next 0xACE1 := by
      rw [seed_minimalPeriod]; simpa using hi
    have hj2 : j < Function.minimalPeriod lfsr_next 0xACE1 := by
      rw [seed_minimalPeriod]; simpa using hj
    exact (Function.iterate_eq_iterate_iff_of_lt_minimalPeriod hi2 hj2).mp hij
  have hsub : (Finset.range 65535).image (fun k => lfsr_next^[k] 0xACE1) ⊆ Finset.Icc 1 65535 := by
    intro x hx
    obtain ⟨k, _, rfl⟩ := Finset.mem_image.mp hx
    have := lfsr_iterate_range 0xACE1 (by decide) (by decide) k
    simp only [Finset.mem_Icc]
    omega
  have hcard : (Finset.Icc 1 65535).card ≤
      ((Finset.range 65535).image (fun k => lfsr_next^[k] 0xACE1)).card := by
    rw [Finset.card_image_of_injOn hinj]
    simp
  have heq := Finset.eq_of_subset_of_card_le hsub hcard
  have ht : t ∈ (Finset.range 65535).image (fun k => lfsr_next^[k] 0xACE1) := by
    rw [heq, Finset.mem_Icc]; omega
  obtain ⟨k, hk, rfl⟩ := Finset.mem_image.mp ht
  exact ⟨k, by simpa using hk, rfl⟩

theorem minimalPeriod_nonzero (s : Nat) (h0 : 0 < s) (h : s < 65536) :
    Function.minimalPeriod lfsr_next s = 65535 := by
  obtain ⟨k, _, rfl⟩ := orbit_covers s h0 h
  have hmem : (0xACE1 : Nat) ∈ Function.periodicPts lfsr_next :=
    Function.mk_mem_periodicPts (by decide) seed_period.1
  rw [Function.minimalPeriod_apply_iterate hmem, seed_minimalPeriod]

/-- C5: the generator is maximal-length.  From the boot seed 0xACE1 the
smallest `n >= 1` with `step^n(s) = s` is exactly 65535; the same holds from
every nonzero 16-bit seed, and within one period the orbit of a nonzero seed
visits every nonzero 16-bit state exactly once. -/
theorem lfsr_maximal_length :
    boot.lfsr = 0xACE1 ∧
    (lfsr_next^[65535] 0xACE1 = 0xACE1
      ∧ ∀ n, 1 ≤ n → n < 65535 → lfsr_next^[n] 0xACE1 ≠ 0xACE1)
    ∧ (∀ s, 0 < s → s < 65536 →
        lfsr_next^[65535] s = s ∧ ∀ n, 1 ≤ n → n < 65535 → lfsr_next^[n] s ≠ s)
    ∧ (∀ s t, 0 < s → s < 65536 → 0 < t → t < 65536 →
        ∃! k, k < 65535 ∧ lfsr_next^[k] s = t) := by
  refine ⟨rfl, seed_period, ?_, ?_⟩
  · intro s h0 h
    have hmp := minimalPeriod_nonzero s h0 h
    constructor
    · have := Function.iterate_minimalPeriod (f := lfsr_next) (x := s)
      rwa [hmp] at this
    · intro n h1 h2
      exact Function.not_isPeriodicPt_of_pos_of_lt_minimalPeriod (by omega) (by rw [hmp]; exact h2)
  · intro s t hs0 hs ht0 ht
    have hmp := minimalPeriod_nonzero s hs0 hs
    obtain ⟨i, hi, rfl⟩ := orbit_covers s hs0 hs
    obtain ⟨j, hj, rfl⟩ := orbit_covers t ht0 ht
    have hper : Function.IsPeriodicPt lfsr_next 65535 0xACE1 := seed_period.1
    have hlt : (j + 65535 - i) % 65535 < 65535 := Nat.mod_lt _ (by decide)
    have h2 : lfsr_next^[(j + 65535 - i) % 65535] (lfsr_next^[i] 0xACE1)
        = lfsr_next^[j] 0xACE1 := by
      have hidx : ((j + 65535 - i) % 65535 + i) % 65535 = j % 65535 := by omega
      rw [← Function.iterate_add_apply, ← hper.iterate_mod_apply, hidx, hper.iterate_mod_apply]
    refine ⟨(j + 65535 - i) % 65535, ⟨hlt, h2⟩, ?_⟩
    · rintro k ⟨hk, hkt⟩
      exact (Function.iterate_eq_iterate_iff_of_lt_minimalPeriod (by rw [hmp]; exact hk)
        (by rw [hmp]; exact hlt)).mp (hkt.trans h2.symm)

/-- Witness of C5 at the seed 1: it returns to itself after 65535 steps. -/
theorem lfsr_maximal_length_witness : lfsr_next^[65535] 1 = 1 :=
  (lfsr_maximal_length.2.2.1 1 (by decide) (by decide)).1

/-! ## The pitch resolver -/

theorem sub16_int (a b : Nat) : ((sub16 a b : Nat) : Int) = ((a : Int) - b) % 65536 := by
  unfold sub16
  omega

theorem newpitch_int (s : State) :
    ((update_pitch_newpitch s : Nat) : Int)
      = if s.usemidi ≠ 0 then ((s.pitch : Int) - 4 * s.lfoval) % 65536
        else (200 + 4 * ((s.pitch : Int) - s.lfoval)) % 65536 := by
  unfold update_pitch_newpitch sub16
  split <;> omega

theorem update_pitch_outpitch (s : State) :
    (update_pitch s).outpitch = update_pitch_newpitch s := by
  unfold update_pitch
  dsimp only
  split
  · split <;> rfl
  · rename_i h
    exact (not_not.mp h).symm

theorem update_pitch_same (s : State) (h : update_pitch_newpitch s = s.outpitch) :
    update_pitch s = s := by
  unfold update_pitch
  dsimp only
  rw [if_neg (by simpa using h)]

/-- C6: after `update_pitch` the stored period `outpitch` is
`(pitch - 4*lfoval) mod 2^16` when `usemidi` is nonzero and
`(200 + 4*(pitch - lfoval)) mod 2^16` when it is zero (integer subtraction,
reduced modulo `2^16`); e.g. 400, 0 gives 1800 without external control and
440, 10 gives 400 with it. -/
theorem update_pitch_formula :
    (∀ s : State, ((update_pitch s).outpitch : Int)
      = if s.usemidi ≠ 0 then ((s.pitch : Int) - 4 * s.lfoval) % 65536
        else (200 + 4 * ((s.pitch : Int) - s.lfoval)) % 65536)
    ∧ (update_pitch { boot with usemidi := 0, pitch := 400, lfoval := 0 }).outpitch = 1800
    ∧ (update_pitch { boot with usemidi := 1, pitch := 440, lfoval := 10 }).outpitch = 400 := by
  refine ⟨fun s => ?_, by decide, by decide⟩
  rw [update_pitch_outpitch]
  exact newpitch_int s

/-- C7: if the newly computed period equals `outpitch`, `update_pitch`
changes nothing (in particular `outpitch`, `OCR1A` and `TCNT1`, whatever
`TCNT1` holds); if it differs, `OCR1A` and `outpitch` become the new period,
`TCNT1` becomes 0 exactly when it was greater than the new period and is
otherwise unchanged, and `TCNT1 <= OCR1A` holds afterwards.  A second call,
after any movement of the counter, is then without effect. -/
theorem update_pitch_reprogram (s : State) :
    (update_pitch_newpitch s = s.outpitch → update_pitch s = s)
    ∧ (update_pitch_newpitch s ≠ s.outpitch →
        (update_pitch s).OCR1A = update_pitch_newpitch s
        ∧ (update_pitch s).outpitch = update_pitch_newpitch s
        ∧ (update_pitch s).TCNT1 = (if s.TCNT1 > update_pitch_newpitch s then 0 else s.TCNT1)
        ∧ (update_pitch s).TCNT1 ≤ (update_pitch s).OCR1A)
    ∧ (∀ c : Nat, update_pitch { update_pitch s with TCNT1 := c }
        = { update_pitch s with TCNT1 := c }) := by
  refine ⟨update_pitch_same s, ?_, ?_⟩
  · intro h
    have hu : update_pitch s
        = { s with outpitch := update_pitch_newpitch s,
                   TCNT1 := if s.TCNT1 > update_pitch_newpitch s then 0 else s.TCNT1,
                   OCR1A := update_pitch_newpitch s } := by
      unfold update_pitch
      dsimp only
      rw [if_pos h]
      split <;> rfl
    rw [hu]
    refine ⟨rfl, rfl, rfl, ?_⟩
    dsimp only
    split <;> omega
  · intro c
    have hn : update_pitch_newpitch { update_pitch s with TCNT1 := c }
        = update_pitch_newpitch s := by
      have h1 : (update_pitch s).usemidi = s.usemidi ∧ (update_pitch s).pitch = s.pitch
          ∧ (update_pitch s).lfoval = s.lfoval := by
        unfold update_pitch
        dsimp only
        split
        · split <;> exact ⟨rfl, rfl, rfl⟩
        · exact ⟨rfl, rfl, rfl⟩
      unfold update_pitch_newpitch
      dsimp only
      rw [h1.1, h1.2.1, h1.2.2]
    have ho : ({ update_pitch s with TCNT1 := c } : State).outpitch = update_pitch_newpitch s :=
      update_pitch_outpitch s
    have h2 : update_pitch_newpitch { update_pitch s with TCNT1 := c }
        = ({ update_pitch s with TCNT1 := c } : State).outpitch := by
      rw [hn, ho]
    exact update_pitch_same _ h2

/-- Witness of C7: at boot the period differs from `outpitch = 0`; with the
counter at 5000 the call programs 1800 and resets the counter. -/
theorem update_pitch_reprogram_witness :
    (update_pitch { boot with TCNT1 := 5000 }).OCR1A = 1800
    ∧ (update_pitch { boot with TCNT1 := 5000 }).TCNT1 = 0 := by
  have h := (update_pitch_reprogram { boot with TCNT1 := 5000 }).2.1 (by decide)
  exact ⟨h.1.trans (by decide), h.2.2.1.trans (by decide)⟩

/-! ## The envelope gate -/

theorem update_env_fields (s : State) :
    (update_env s).envfreq = s.envfreq
    ∧ (update_env s).envwidth = s.envwidth
    ∧ (update_env s).envtimer
        = (if (s.envtimer + 1) % 256 ≥ s.envfreq then 0 else (s.envtimer + 1) % 256)
    ∧ (update_env s).envval
        = (if (update_env s).envtimer ≤ s.envwidth then 1 else 0) := by
  unfold update_env
  dsimp only
  by_cases h1 : (s.envtimer + 1) % 256 ≥ s.envfreq
  · by_cases h2 : 0 ≤ s.envwidth
    · simp [h1]
    · omega
  · by_cases h2 : (s.envtimer + 1) % 256 ≤ s.envwidth
    · simp [h1, h2]
    · simp [h1, h2]

theorem update_env_phase (s : State) (hF : s.envfreq ≤ 255) (hp : s.envtimer < s.envfreq) :
    (update_env s).envtimer = (s.envtimer + 1) % s.envfreq := by
  rw [(update_env_fields s).2.2.1]
  have h256 : (s.envtimer + 1) % 256 = s.envtimer + 1 := Nat.mod_eq_of_lt (by omega)
  rw [h256]
  split
  · have he : s.envtimer + 1 = s.envfreq := by omega
    rw [he, Nat.mod_self]
  · rw [Nat.mod_eq_of_lt (by omega)]

theorem update_env_iterate (s : State) (hF : s.envfreq ≤ 255) (hp : s.envtimer < s.envfreq) :
    ∀ k, (update_env^[k] s).envfreq = s.envfreq
      ∧ (update_env^[k] s).envwidth = s.envwidth
      ∧ (update_env^[k] s).envtimer = (s.envtimer + k) % s.envfreq
      ∧ (1 ≤ k → (update_env^[k] s).envval
          = (if (s.envtimer + k) % s.envfreq ≤ s.envwidth then 1 else 0)) := by
  intro k
  induction k with
  | zero =>
    refine ⟨rfl, rfl, ?_, fun h => absurd h (by decide)⟩
    rw [Nat.add_zero, Nat.mod_eq_of_lt hp]; rfl
  | succ k ih =>
    obtain ⟨h1, h2, h3, _⟩ := ih
    rw [Function.iterate_succ_apply']
    have hf := update_env_fields (update_env^[k] s)
    have hlt : (update_env^[k] s).envtimer < (update_env^[k] s).envfreq := by
      rw [h1, h3]; exact Nat.mod_lt _ (by omega)
    have hph := update_env_phase (update_env^[k] s) (by rw [h1]; exact hF) hlt
    have hph2 : (update_env (update_env^[k] s)).envtimer = (s.envtimer + (k + 1)) % s.envfreq := by
      rw [hph, h1, h3, Nat.add_mod, Nat.mod_mod, ← Nat.add_mod, Nat.add_assoc]
    refine ⟨hf.1.trans h1, hf.2.1.trans h2, hph2, fun _ => ?_⟩
    rw [hf.2.2.2, hph2, h2]

/-- C8: with `envfreq = F` in 1..255, `envwidth = W` (any width, in particular
every `W < F`) and phase `p < F`,
`update_env` sets the phase to `p+1` if `p+1 < F` and to 0 otherwise, and
`envval` to 1 if the new phase is `<= W` and to 0 otherwise.  After `k >= 1`
calls the phase is `(p+k) mod F` with the gate 1 exactly when that phase is
`<= W`; within `F` consecutive calls every phase `q < F` is reached, with
gate 1 for `q` in 0..W and 0 for `q` in W+1..F-1; `envval` is 0 or 1. -/
theorem update_env_gate (s : State)
    (hF1 : 1 ≤ s.envfreq) (hF2 : s.envfreq ≤ 255) (hp : s.envtimer < s.envfreq) :
    (update_env s).envtimer = (if s.envtimer + 1 < s.envfreq then s.envtimer + 1 else 0)
    ∧ (update_env s).envval = (if (update_env s).envtimer ≤ s.envwidth then 1 else 0)
    ∧ (∀ k, 1 ≤ k →
        (update_env^[k] s).envtimer = (s.envtimer + k) % s.envfreq
        ∧ (update_env^[k] s).envval
            = (if (s.envtimer + k) % s.envfreq ≤ s.envwidth then 1 else 0))
    ∧ (∀ q, q < s.envfreq → ∃ k, 1 ≤ k ∧ k ≤ s.envfreq
        ∧ (update_env^[k] s).envtimer = q
        ∧ (update_env^[k] s).envval = (if q ≤ s.envwidth then 1 else 0))
    ∧ ((update_env s).envval = 0 ∨ (update_env s).envval = 1) := by
  have hf := update_env_fields s
  have hit := update_env_iterate s hF2 hp
  refine ⟨?_, hf.2.2.2, fun k hk => ⟨(hit k).2.2.1, (hit k).2.2.2 hk⟩, ?_, ?_⟩
  · rw [hf.2.2.1]
    have h256 : (s.envtimer + 1) % 256 = s.envtimer + 1 := Nat.mod_eq_of_lt (by omega)
    rw [h256]
    split <;> split <;> omega
  · intro q hq
    have key : ∀ k, 1 ≤ k → k ≤ s.envfreq → (s.envtimer + k) % s.envfreq = q →
        ∃ k, 1 ≤ k ∧ k ≤ s.envfreq ∧ (update_env^[k] s).envtimer = q
          ∧ (update_env^[k] s).envval = (if q ≤ s.envwidth then 1 else 0) := by
      intro k h1 h2 h3
      refine ⟨k, h1, h2, ?_, ?_⟩
      · rw [(hit k).2.2.1, h3]
      · rw [(hit k).2.2.2 h1, h3]
    by_cases hqp : s.envtimer < q
    · apply key (q - s.envtimer) (by omega) (by omega)
      have e : s.envtimer + (q - s.envtimer) = q := by omega
      rw [e, Nat.mod_eq_of_lt hq]
    · apply key (q + s.envfreq - s.envtimer) (by omega) (by omega)
      have e : s.envtimer + (q + s.envfreq - s.envtimer) = q + s.envfreq := by omega
      rw [e, Nat.add_mod_right, Nat.mod_eq_of_lt hq]
  · rw [hf.2.2.2]
    split
    · right; rfl
    · left; rfl

/-- Witness of C8: period 4, width 1, phase 3 wraps to phase 0 with the gate
at 1. -/
theorem update_env_gate_witness :
    (update_env { boot with envfreq := 4, envwidth := 1, envtimer := 3 }).envtimer = 0
    ∧ (update_env { boot with envfreq := 4, envwidth := 1, envtimer := 3 }).envval = 1 := by
  have h := update_env_gate { boot with envfreq := 4, envwidth := 1, envtimer := 3 }
    (by decide) (by decide) (by decide)
  exact ⟨h.1.trans (by decide), h.2.1.trans (by decide)⟩

/-! ## The LFO parameters and the LFO value -/

theorem update_synth_params_lfo (s : State) :
    (update_synth_params s).lfofreq = ((s.knobs LFO_FREQ_KNOB).val >>> 2) % 65536
    ∧ (update_synth_params s).lfodepth = ((s.knobs LFO_DEPTH_KNOB).val >>> 2) % 65536
    ∧ (update_synth_params s).lfodelta
        = (if (update_synth_params s).lfofreq ≠ 0 then
            (((update_synth_params s).lfodepth * 256) % 65536) / (update_synth_params s).lfofreq
           else 0)
    ∧ (update_synth_params s).lfotimer = s.lfotimer := by
  unfold update_synth_params
  dsimp only
  refine ⟨?_, ?_, ?_, ?_⟩ <;> (split <;> split <;> split <;> split <;> rfl)

theorem update_lfo_tail_lfoval (s : State) : (update_lfo_tail s).lfoval = s.lfoval := by
  unfold update_lfo_tail
  dsimp only
  split <;> split <;> rfl

theorem update_lfo_of_switch (s s1 : State) (h : update_lfo_switch s = some s1) :
    ∃ s2, update_lfo s = some s2 ∧ s2.lfoval = s1.lfoval :=
  ⟨update_lfo_tail s1, by unfold update_lfo; rw [h]; rfl, update_lfo_tail_lfoval s1⟩

theorem midpoint_product_le (F D : Nat) : F / 2 * (D * 256 / F) * 2 ≤ D * 256 :=
  calc F / 2 * (D * 256 / F) * 2 = (F / 2 * 2) * (D * 256 / F) := by ring
    _ ≤ F * (D * 256 / F) := Nat.mul_le_mul_right _ (by omega)
    _ ≤ D * 256 := Nat.mul_div_le _ _

/-- C9 (as amended): for `F` in 2..255 and `D` in 0..255, `update_synth_params`
sets `lfodelta = floor(D*256/F)`, and with `lfowavenum = 0` a call of
`update_lfo` at phase `floor(F/2)` sets
`lfoval = D - floor(floor(F/2)*lfodelta/256)`; this lies between `D/2`
(rounded up) and `D` and equals `D` only when `floor(F/2)*lfodelta < 256`. -/
theorem lfo_triangle_midpoint (F D : Nat) (hF2 : 2 ≤ F) (hF : F ≤ 255) (hD : D ≤ 255) :
    (∀ s0 : State, (update_synth_params s0).lfofreq = F →
        (update_synth_params s0).lfodepth = D →
        (update_synth_params s0).lfodelta = D * 256 / F)
    ∧ (∀ s : State, s.lfowavenum = 0 → s.lfofreq = F → s.lfodepth = D →
        s.lfodelta = D * 256 / F → s.lfotimer = F / 2 →
        ∃ s2, update_lfo s = some s2
          ∧ s2.lfoval = D - (F / 2 * (D * 256 / F)) / 256
          ∧ D ≤ 2 * s2.lfoval ∧ s2.lfoval ≤ D
          ∧ (s2.lfoval = D ↔ F / 2 * (D * 256 / F) < 256)) := by
  constructor
  · intro s0 hf hd
    rw [(update_synth_params_lfo s0).2.2.1, hf, hd, if_pos (by omega),
      Nat.mod_eq_of_lt (by omega)]
  · intro s hw hf hd hdel ht
    have hP := midpoint_product_le F D
    have hsw : update_lfo_switch s
        = some { s with lfoval := sub16 D (((F / 2 * (D * 256 / F)) % 65536) >>> 8) } := by
      unfold update_lfo_switch
      simp only [hw, hf, hd, hdel, ht]
      rw [if_pos (Nat.le_refl _)]
    obtain ⟨s2, h1, h2⟩ := update_lfo_of_switch s _ hsw
    have hv : s2.lfoval = D - (F / 2 * (D * 256 / F)) / 256 := by
      rw [h2]
      dsimp only
      unfold sub16
      rw [Nat.shiftRight_eq_div_pow]
      generalize F / 2 * (D * 256 / F) = P at hP ⊢
      omega
    refine ⟨s2, h1, hv, ?_, ?_, ?_⟩
    · rw [hv]
      generalize F / 2 * (D * 256 / F) = P at hP ⊢
      omega
    · rw [hv]; omega
    · rw [hv]
      generalize F / 2 * (D * 256 / F) = P at hP ⊢
      omega

/-- Witness of C9 (amended): period 2, depth 100: the midpoint value is 50. -/
theorem lfo_triangle_midpoint_witness :
    ∃ s2, update_lfo (update_synth_params triangle_probe) = some s2 ∧ s2.lfoval = 50 := by
  obtain ⟨s2, h1, h2, _⟩ := (lfo_triangle_midpoint 2 100 (by decide) (by decide) (by decide)).2
    (update_synth_params triangle_probe) (by decide) (by decide) (by decide) (by decide)
    (by decide)
  exact ⟨s2, h1, h2.trans (by decide)⟩

/-- Counterexample to C9 as stated: with `F = 2`, `D = 100`, triangle selected,
`lfodelta = floor(100*256/2) = 12800` computed by `update_synth_params` and the
phase at `F/2 = 1`, `update_lfo` sets `lfoval` to 50, not to the depth 100. -/
theorem lfo_triangle_midpoint_counterexample :
    (update_synth_params triangle_probe).lfowavenum = 0
    ∧ (update_synth_params triangle_probe).lfofreq = 2
    ∧ (update_synth_params triangle_probe).lfodepth = 100
    ∧ (update_synth_params triangle_probe).lfodelta = 100 * 256 / 2
    ∧ (update_synth_params triangle_probe).lfotimer = 2 / 2
    ∧ (update_lfo (update_synth_params triangle_probe)).map (fun t => t.lfoval) = some 50
    ∧ (update_lfo (update_synth_params triangle_probe)).map (fun t => t.lfoval) ≠ some 100 := by
  decide

theorem update_lfo_switch_flat (s : State) (hw : s.lfowavenum ≤ 6) (hf : s.lfofreq = 0)
    (hd : s.lfodelta = 0) (hD : s.lfodepth < 65536) :
    ∃ s1, update_lfo_switch s = some s1
      ∧ s1.lfoval = (if s.lfowavenum = 0 ∨ s.lfowavenum = 2 ∨ s.lfowavenum = 3
                      then s.lfodepth else 0) := by
  have hsub : sub16 s.lfodepth 0 = s.lfodepth := by
    unfold sub16; omega
  have hcases : s.lfowavenum = 0 ∨ s.lfowavenum = 1 ∨ s.lfowavenum = 2 ∨ s.lfowavenum = 3
      ∨ s.lfowavenum = 4 ∨ s.lfowavenum = 5 ∨ s.lfowavenum = 6 := by omega
  unfold update_lfo_switch
  rcases hcases with h | h | h | h | h | h | h <;>
    simp [h, hf, hd, hsub]

theorem update_synth_params_knobs (s : State) :
    (update_synth_params s).lfodepth = ((s.knobs LFO_DEPTH_KNOB).val >>> 2) % 65536 :=
  (update_synth_params_lfo s).2.1

theorem div16_guarded (a b : Nat) (g : Nat → State) :
    (match (if b ≠ 0 then div16 a b else some 0) with
      | none => none
      | some d => some (g d)) = some (g (if b ≠ 0 then a / b else 0)) := by
  by_cases h : b = 0
  · simp [h]
  · simp [h, div16]

theorem update_synth_params_checked_eq (s : State) :
    update_synth_params_checked s = some (update_synth_params s) := by
  unfold update_synth_params_checked update_synth_params
  dsimp only
  exact div16_guarded _ _ _

theorem adc_sample_le (ADCL ADCH : Nat) (h : ADCH ≤ 3) :
    ((ADCL % 256) % 65536 + ((ADCH % 256) <<< 8)) % 65536 ≤ 1023 := by
  rw [Nat.shiftLeft_eq]
  omega

theorem main_sample_invariant (t ADCL ADCH : Nat) (k : knob_t) (hH : ADCH ≤ 3)
    (ht : t < 32) (ha : k.accum ≤ 1023 * t) (hv : k.val ≤ 1023) :
    (main_sample t ADCL ADCH k).1 < 32
    ∧ (main_sample t ADCL ADCH k).2.accum ≤ 1023 * (main_sample t ADCL ADCH k).1
    ∧ (main_sample t ADCL ADCH k).2.val ≤ 1023 := by
  have hs := adc_sample_le ADCL ADCH hH
  have hmask : ((t + 1) % 256) &&& (NUM_ADC_SAMPLES - 1) = (t + 1) % 32 := by
    have h := Nat.and_pow_two_sub_one_eq_mod ((t + 1) % 256) 5
    have h31 : NUM_ADC_SAMPLES - 1 = 2 ^ 5 - 1 := rfl
    rw [h31, h]
    omega
  unfold main_sample read_adc
  dsimp only
  rw [hmask]
  generalize ((ADCL % 256) % 65536 + ((ADCH % 256) <<< 8)) % 65536 = v at hs
  by_cases h0 : (t + 1) % 32 = 0
  · rw [if_pos h0]
    refine ⟨by omega, ?_, ?_⟩
    · dsimp only; omega
    · dsimp only [NUM_ADC_SAMPLES]; omega
  · rw [if_neg h0]
    refine ⟨by omega, ?_, ?_⟩
    · dsimp only; omega
    · exact hv

theorem main_samples_invariant (samples : List (Nat × Nat)) :
    ∀ (t : Nat) (k : knob_t), (∀ p ∈ samples, p.2 ≤ 3) →
      t < 32 → k.accum ≤ 1023 * t → k.val ≤ 1023 →
      (main_samples t k samples).2.val ≤ 1023 := by
  induction samples with
  | nil => intro t k _ _ _ hv; exact hv
  | cons p rest ih =>
    intro t k hp ht ha hv
    obtain ⟨h1, h2, h3⟩ := main_sample_invariant t p.1 p.2 k
      (hp p (List.mem_cons_self _ _)) ht ha hv
    exact ih _ _ (fun q hq => hp q (List.mem_cons_of_mem _ hq)) h1 h2 h3

/-- C10: `update_synth_params` never divides by zero (a division by zero is
`none` in the checked rendering, which nevertheless always returns the
function's result), it sets `lfodelta` to 0 when
`lfofreq = 0` and to `floor(lfodepth*256/lfofreq)` otherwise, for every knob
reading the sampler can deliver: `read_adc`, run pass after pass from the
initial knob on 10-bit right-adjusted conversions (`ADCH <= 3`), only ever
stores readings `<= 1023`.  (In general the value is the 16-bit quotient
`floor((lfodepth*256 mod 2^16)/lfofreq)`.)  With `lfofreq = 0` and
`lfodelta = 0`, for every waveform index 0..6, every 16-bit `lfodepth` and
every `lfotimer`, `update_lfo` is defined and the `lfoval` it produces does not
depend on `lfotimer`: it is `lfodepth` for the indices 0, 2, 3 and 0 for the
indices 1, 4, 5, 6. -/
theorem zero_lfofreq_flat :
    (∀ a : Nat, div16 a 0 = none)
    ∧ (∀ s : State, update_synth_params_checked s = some (update_synth_params s))
    ∧ (∀ s : State, (update_synth_params s).lfofreq = 0 → (update_synth_params s).lfodelta = 0)
    ∧ (∀ samples : List (Nat × Nat), (∀ p ∈ samples, p.2 ≤ 3) →
        (main_samples 0 ⟨0, 0⟩ samples).2.val ≤ 1023)
    ∧ (∀ s : State, (s.knobs LFO_DEPTH_KNOB).val ≤ 1023 →
        (update_synth_params s).lfofreq ≠ 0 →
        (update_synth_params s).lfodelta
          = (update_synth_params s).lfodepth * 256 / (update_synth_params s).lfofreq)
    ∧ (∀ s : State, (update_synth_params s).lfofreq ≠ 0 →
        (update_synth_params s).lfodelta
          = ((update_synth_params s).lfodepth * 256 % 65536) / (update_synth_params s).lfofreq)
    ∧ (∀ (s : State) (t : Nat), s.lfowavenum ≤ 6 → s.lfofreq = 0 → s.lfodelta = 0 →
        s.lfodepth < 65536 →
        ∃ s2, update_lfo { s with lfotimer := t } = some s2
          ∧ s2.lfoval = (if s.lfowavenum = 0 ∨ s.lfowavenum = 2 ∨ s.lfowavenum = 3
                          then s.lfodepth else 0)) := by
  refine ⟨fun _ => rfl, update_synth_params_checked_eq, ?_, ?_, ?_, ?_, ?_⟩
  · intro s h
    rw [(update_synth_params_lfo s).2.2.1, if_neg (by simpa using h)]
  · intro samples hp
    exact main_samples_invariant samples 0 ⟨0, 0⟩ hp (by decide) (Nat.le_refl _) (Nat.zero_le _)
  · intro s hk h
    have hd := (update_synth_params_lfo s).2.2.1
    rw [if_pos h] at hd
    have hdepth : (update_synth_params s).lfodepth ≤ 255 := by
      rw [update_synth_params_knobs, Nat.shiftRight_eq_div_pow]
      omega
    rw [hd, Nat.mod_eq_of_lt (by omega)]
  · intro s h
    have hd := (update_synth_params_lfo s).2.2.1
    rw [if_pos h] at hd
    exact hd
  · intro s t hw hf hd hD
    obtain ⟨s1, h1, h2⟩ := update_lfo_switch_flat { s with lfotimer := t } hw hf hd hD
    obtain ⟨s2, h3, h4⟩ := update_lfo_of_switch _ s1 h1
    exact ⟨s2, h3, h4.trans h2⟩

/-- Witness of C10: with the frequency knob at 8 and the depth knob at 400
(`lfofreq = 2`, `lfodepth = 100`) the computed `lfodelta` is
`floor(100*256/2) = 12800`; at boot (`lfofreq = 0`, `lfodelta = 0`) with the
triangle selected and depth 100 the LFO value is 100 at phase 17. -/
theorem zero_lfofreq_flat_witness :
    (update_synth_params triangle_probe).lfodelta = 12800
    ∧ ∃ s2, update_lfo { ({ boot with lfowavenum := 0, lfodepth := 100 } : State)
        with lfotimer := 17 } = some s2 ∧ s2.lfoval = 100 := by
  refine ⟨?_, ?_⟩
  · exact (zero_lfofreq_flat.2.2.2.2.1 triangle_probe (by decide) (by decide)).trans (by decide)
  · obtain ⟨s2, h1, h2⟩ := zero_lfofreq_flat.2.2.2.2.2.2
      { boot with lfowavenum := 0, lfodepth := 100 } 17 (by decide) rfl rfl (by decide)
    exact ⟨s2, h1, h2.trans (by decide)⟩

/-! ## Definedness and range of the LFO value -/

theorem update_lfo_switch_none_iff (s : State) :
    update_lfo_switch s = none ↔ s.lfowavenum = 7 ∧ s.lfotimer = 0 ∧ s.lfodepth = 0 := by
  unfold update_lfo_switch
  split <;> (try split) <;> simp_all [lfsr_rand]
  split <;> exact Option.some_ne_none _

theorem update_lfo_none_iff (s : State) :
    update_lfo s = none ↔ s.lfowavenum = 7 ∧ s.lfotimer = 0 ∧ s.lfodepth = 0 := by
  unfold update_lfo
  rw [Option.map_eq_none', update_lfo_switch_none_iff]

/-- C11 (failing input): with the LFO waveform knob on the random waveform
and every other knob at 0, `update_synth_params` yields `lfowavenum = 7`,
`lfofreq = 0`, `lfodepth = 0` at phase 0, and the following `update_lfo`
evaluates `lfsr_rand() % lfodepth` with `lfodepth = 0`: it is undefined. -/
theorem update_lfo_random_zero_depth :
    (update_synth_params random_probe).lfowavenum = 7
    ∧ (update_synth_params random_probe).lfofreq = 0
    ∧ (update_synth_params random_probe).lfodepth = 0
    ∧ (update_synth_params random_probe).lfotimer = 0
    ∧ update_lfo (update_synth_params random_probe) = none :=
  ⟨by decide, by decide, by decide, by decide,
    (update_lfo_none_iff _).mpr ⟨by decide, by decide, by decide⟩⟩

theorem lfo_product_le (t F D : Nat) (ht : t ≤ F) : t * (D * 256 / F) ≤ D * 256 :=
  calc t * (D * 256 / F) ≤ F * (D * 256 / F) := Nat.mul_le_mul_right _ ht
    _ ≤ D * 256 := Nat.mul_div_le _ _

theorem lfo_half_product_le (t F D : Nat) (ht : t < F / 2) :
    t * (D * 256 / F) * 2 ≤ D * 256 :=
  calc t * (D * 256 / F) * 2 = (t * 2) * (D * 256 / F) := by ring
    _ ≤ F * (D * 256 / F) := Nat.mul_le_mul_right _ (by omega)
    _ ≤ D * 256 := Nat.mul_div_le _ _

theorem update_lfo_switch_within_depth (s : State) (P : Nat)
    (hw : s.lfowavenum ≤ 6) (hD : s.lfodepth ≤ 255)
    (hP : s.lfotimer * s.lfodelta = P) (hP1 : P ≤ s.lfodepth * 256)
    (hP2 : s.lfotimer < s.lfofreq / 2 → P * 2 ≤ s.lfodepth * 256) :
    ∃ s1, update_lfo_switch s = some s1 ∧ s1.lfoval ≤ s.lfodepth := by
  have hcases : s.lfowavenum = 0 ∨ s.lfowavenum = 1 ∨ s.lfowavenum = 2 ∨ s.lfowavenum = 3
      ∨ s.lfowavenum = 4 ∨ s.lfowavenum = 5 ∨ s.lfowavenum = 6 := by omega
  unfold update_lfo_switch
  rcases hcases with h | h | h | h | h | h | h <;> simp only [h, hP]
  · by_cases hc : s.lfotimer ≥ s.lfofreq / 2
    · rw [if_pos hc]
      refine ⟨_, rfl, ?_⟩
      simp only [sub16, Nat.shiftRight_eq_div_pow]
      omega
    · rw [if_neg hc]
      refine ⟨_, rfl, ?_⟩
      simp only [Nat.shiftRight_eq_div_pow]
      omega
  · refine ⟨_, rfl, ?_⟩
    simp only [Nat.shiftRight_eq_div_pow]
    omega
  · refine ⟨_, rfl, ?_⟩
    simp only [sub16, Nat.shiftRight_eq_div_pow]
    omega
  · refine ⟨_, rfl, ?_⟩
    dsimp only
    split <;> omega
  · refine ⟨_, rfl, ?_⟩
    dsimp only
    split <;> omega
  · by_cases hc : s.lfotimer < s.lfofreq / 2
    · have h2 := hP2 hc
      rw [if_pos hc]
      refine ⟨_, rfl, ?_⟩
      simp only [Nat.shiftRight_eq_div_pow]
      omega
    · rw [if_neg hc]
      exact ⟨_, rfl, Nat.zero_le _⟩
  · by_cases hc : s.lfotimer < s.lfofreq / 2
    · have h2 := hP2 hc
      rw [if_pos hc]
      refine ⟨_, rfl, ?_⟩
      simp only [sub16, Nat.shiftRight_eq_div_pow]
      omega
    · rw [if_neg hc]
      exact ⟨_, rfl, Nat.zero_le _⟩

/-- C19: for every waveform index 0..6, every `lfofreq = F` (in particular
every `F` in 1..255; the phase bound already forces `F >= 1`), every
`lfodepth = D` in 0..255, `lfodelta = floor(D*256/F)` and every phase
`lfotimer < F`, the product `lfotimer*lfodelta` is below `2^16`, the ramp
values subtracted from the depth (`product >> 8`, and `product >> 7` in the
first half period) do not exceed `D`, so no subtraction wraps, and
`update_lfo` is defined and sets `lfoval` to a value `<= D`. -/
theorem lfo_value_within_depth (s : State)
    (hw : s.lfowavenum ≤ 6) (hD : s.lfodepth ≤ 255)
    (hdel : s.lfodelta = s.lfodepth * 256 / s.lfofreq) (ht : s.lfotimer < s.lfofreq) :
    s.lfotimer * s.lfodelta < 65536
    ∧ (s.lfotimer * s.lfodelta) >>> 8 ≤ s.lfodepth
    ∧ (s.lfotimer < s.lfofreq / 2 → (s.lfotimer * s.lfodelta) >>> 7 ≤ s.lfodepth)
    ∧ ∃ s2, update_lfo s = some s2 ∧ s2.lfoval ≤ s.lfodepth := by
  have hP1 : s.lfotimer * s.lfodelta ≤ s.lfodepth * 256 := by
    rw [hdel]; exact lfo_product_le _ _ _ (Nat.le_of_lt ht)
  have hP2 : s.lfotimer < s.lfofreq / 2 → s.lfotimer * s.lfodelta * 2 ≤ s.lfodepth * 256 := by
    intro hc; rw [hdel]; exact lfo_half_product_le _ _ _ hc
  obtain ⟨s1, h1, h2⟩ := update_lfo_switch_within_depth s _ hw hD rfl hP1 hP2
  obtain ⟨s2, h3, h4⟩ := update_lfo_of_switch s s1 h1
  refine ⟨by omega, ?_, ?_, s2, h3, by omega⟩
  · rw [Nat.shiftRight_eq_div_pow]
    generalize s.lfotimer * s.lfodelta = P at hP1
    omega
  · intro hc
    have h5 := hP2 hc
    rw [Nat.shiftRight_eq_div_pow]
    generalize s.lfotimer * s.lfodelta = P at h5
    omega

/-- Witness of C19: triangle, period 2, depth 100, phase 1 gives a value
within the depth. -/
theorem lfo_value_within_depth_witness :
    ∃ s2, update_lfo (update_synth_params triangle_probe) = some s2 ∧ s2.lfoval ≤ 100 :=
  (lfo_value_within_depth (update_synth_params triangle_probe)
    (by decide) (by decide) (by decide) (by decide)).2.2.2

/-! ## The waveform-change pulse of the power indicator -/

theorem pin_eq_testBit (v b : Nat) : pin v b = if v.testBit b then 1 else 0 := by
  unfold pin
  rw [Nat.and_one_is_mod, Nat.testBit_to_div_mod, Nat.shiftRight_eq_div_pow]
  rcases Nat.mod_two_eq_zero_or_one (v / 2 ^ b) with h | h <;> simp [h]

theorem pin_set_bit_four (v : Nat) : pin (set_bit v 4) 4 = 1 := by
  rw [pin_eq_testBit, set_bit, _BV, Nat.testBit_or, Nat.one_shiftLeft, Nat.testBit_two_pow_self]
  simp

theorem pin_clear_bit_four (v : Nat) : pin (clear_bit v 4) 4 = 0 := by
  rw [pin_eq_testBit, clear_bit, _BV, Nat.testBit_and]
  have h : (0xFF ^^^ 1 <<< 4 : Nat).testBit 4 = false := by decide
  rw [h]
  simp

theorem update_synth_params_latch (s : State) :
    (update_synth_params s).wavenum = newwavenum s.knobs
    ∧ (update_synth_params s).lfowavenum = newlfowavenum s.knobs
    ∧ (update_synth_params s).knobs = s.knobs := by
  unfold update_synth_params newwavenum newlfowavenum
  dsimp only
  refine ⟨?_, ?_, ?_⟩ <;> (split <;> split <;> split <;> split <;> simp_all)

theorem update_synth_params_pulse (s : State) (h0 : s.ledpulse = 0) :
    (update_synth_params s).ledpulse = 0
    ∧ (update_synth_params s).PORTB
        = (if newwavenum s.knobs ≠ s.wavenum ∨ newlfowavenum s.knobs ≠ s.lfowavenum
           then clear_bit s.PORTB PWR_LED_PIN else set_bit s.PORTB PWR_LED_PIN) := by
  unfold update_synth_params newwavenum newlfowavenum
  dsimp only
  by_cases hu : s.usemidi = 0 <;>
    by_cases h1 : ((s.knobs AUDIO_WF_KNOB).val >>> 7) % 256 = s.wavenum <;>
    by_cases h2 : ((s.knobs LFO_WF_KNOB).val >>> 7) % 256 = s.lfowavenum <;>
    simp [hu, h1, h2, h0]

/-- C15: for every call of `update_synth_params` entered with `ledpulse = 0`,
the power indicator (bit `PWR_LED_PIN` of `PORTB`) is driven low in that call
iff the audio waveform index or the LFO waveform index selected by the knobs
differs from the latched one (and is driven high otherwise); `ledpulse` is 0
again on return and both indices are latched, so the next call with unchanged
selectors, whatever the other knobs read, drives the indicator high again.
The audio index is the knob value `>> 7` (as a `uint8_t`). -/
theorem waveform_change_debounce (s : State) (h0 : s.ledpulse = 0) :
    (pin (update_synth_params s).PORTB PWR_LED_PIN = 0
      ↔ (newwavenum s.knobs ≠ s.wavenum ∨ newlfowavenum s.knobs ≠ s.lfowavenum))
    ∧ (pin (update_synth_params s).PORTB PWR_LED_PIN = 1
      ↔ ¬ (newwavenum s.knobs ≠ s.wavenum ∨ newlfowavenum s.knobs ≠ s.lfowavenum))
    ∧ (update_synth_params s).ledpulse = 0
    ∧ (update_synth_params s).wavenum = newwavenum s.knobs
    ∧ (update_synth_params s).lfowavenum = newlfowavenum s.knobs
    ∧ (∀ k : Fin 9 → knob_t, newwavenum k = newwavenum s.knobs →
        newlfowavenum k = newlfowavenum s.knobs →
        pin (update_synth_params { update_synth_params s with knobs := k }).PORTB PWR_LED_PIN = 1)
    ∧ pin (update_synth_params (update_synth_params s)).PORTB PWR_LED_PIN = 1
    ∧ ((s.knobs AUDIO_WF_KNOB).val < 32768 →
        newwavenum s.knobs = (s.knobs AUDIO_WF_KNOB).val >>> 7) := by
  obtain ⟨hl0, hport⟩ := update_synth_params_pulse s h0
  obtain ⟨hw, hlw, hk⟩ := update_synth_params_latch s
  have hnext : ∀ k : Fin 9 → knob_t, newwavenum k = newwavenum s.knobs →
      newlfowavenum k = newlfowavenum s.knobs →
      pin (update_synth_params { update_synth_params s with knobs := k }).PORTB PWR_LED_PIN
        = 1 := by
    intro k h1 h2
    have hp := (update_synth_params_pulse { update_synth_params s with knobs := k } hl0).2
    dsimp only at hp
    rw [hp, if_neg (by rw [h1, h2, hw, hlw]; simp)]
    exact pin_set_bit_four _
  refine ⟨?_, ?_, hl0, hw, hlw, hnext, ?_, ?_⟩
  · rw [hport]
    split
    · rename_i h; simp [h, PWR_LED_PIN, pin_clear_bit_four]
    · rename_i h; simp [h, PWR_LED_PIN, pin_set_bit_four]
  · rw [hport]
    split
    · rename_i h; simp [h, PWR_LED_PIN, pin_clear_bit_four]
    · rename_i h; simp [h, PWR_LED_PIN, pin_set_bit_four]
  · have h := hnext (update_synth_params s).knobs (by rw [hk]) (by rw [hk])
    exact h
  · intro hlt
    unfold newwavenum
    apply Nat.mod_eq_of_lt
    rw [Nat.shiftRight_eq_div_pow]
    omega

/-- Witness of C15: at boot the latched LFO index (8) differs from the
selected one (0), so the first call drives the indicator low and the second
call drives it high. -/
theorem waveform_change_debounce_witness :
    pin (update_synth_params boot).PORTB PWR_LED_PIN = 0
    ∧ pin (update_synth_params (update_synth_params boot)).PORTB PWR_LED_PIN = 1 :=
  ⟨(waveform_change_debounce boot rfl).1.mpr (Or.inr (by decide)),
    (waveform_change_debounce boot rfl).2.2.2.2.2.2.1⟩

/-! ## The serial receive handler -/

set_option maxRecDepth 4096

theorem freqvals_length : freqvals.length = 128 := rfl

theorem rx_note_on_status (s : State) :
    USART_RX_vect s 0x90
      = some { s with usemidi := 1, midimode := MIDI_NOTE_ON, midibytesleft := 2 } := by
  simp [USART_RX_vect]

theorem rx_first_data (s : State) (b : Nat) (hb : b ≤ 127) (hl : s.midibytesleft = 2) :
    USART_RX_vect s b
      = some { s with midibuffer0 := s.midibuffer1, midibuffer1 := b, midibytesleft := 1 } := by
  have hb1 : b % 256 = b := Nat.mod_eq_of_lt (by omega)
  have hb2 : ¬ (b ≥ 128) := by omega
  simp [USART_RX_vect, hl, hb1, hb2]

theorem rx_second_data_note_on (s : State) (b : Nat) (hb : b ≤ 127) (hl : s.midibytesleft = 1)
    (hm : s.midimode = MIDI_NOTE_ON) :
    USART_RX_vect s b
      = (if b = 0 ∧ s.midibuffer1 = s.midilastnote then
          some { s with midibuffer0 := s.midibuffer1, midibuffer1 := b, noteon := 0,
                        midilastnote := 0xFF, midibytesleft := 2 }
        else if b ≠ 0 then
          match freqvals[s.midibuffer1]? with
          | some v => some { s with midibuffer0 := s.midibuffer1, midibuffer1 := b, noteon := 1,
                                    pitch := v, midilastnote := s.midibuffer1,
                                    midibytesleft := 2 }
          | none => none
        else some { s with midibuffer0 := s.midibuffer1, midibuffer1 := b,
                           midibytesleft := 2 }) := by
  have hb1 : b % 256 = b := Nat.mod_eq_of_lt (by omega)
  have hb2 : ¬ (b ≥ 128) := by omega
  simp [USART_RX_vect, hl, hm, hb1, hb2, MIDI_NOTE_ON, MIDI_NOTE_OFF]

theorem receive_note_pair (s : State) (n v : Nat) (hn : n ≤ 127) (hv1 : 1 ≤ v) (hv : v ≤ 127)
    (hl : s.midibytesleft = 2) (hm : s.midimode = MIDI_NOTE_ON) :
    ∃ p, freqvals[n]? = some p
      ∧ receive s [n, v]
          = some { s with midibuffer0 := n, midibuffer1 := v, noteon := 1, pitch := p,
                          midilastnote := n, midibytesleft := 2 } := by
  have hlen : n < freqvals.length := by rw [freqvals_length]; omega
  refine ⟨freqvals[n], List.getElem?_eq_getElem hlen, ?_⟩
  have h1 := rx_first_data s n hn hl
  have h2 := rx_second_data_note_on
    { s with midibuffer0 := s.midibuffer1, midibuffer1 := n, midibytesleft := 1 } v hv rfl hm
  have hv0 : v ≠ 0 := by omega
  simp only [hv0, false_and, if_false, ne_eq, not_false_eq_true, if_true,
    List.getElem?_eq_getElem hlen] at h2
  simp only [receive, h1, Option.some_bind, h2]

/-- C17: for every prior state, every note number `n` in 0..127 and every
velocity `v` in 1..127, the bytes 0x90, `n`, `v` are handled without a table
access out of range and leave `noteon = 1`, `pitch = freqvals[n]`,
`midilastnote = n` and `usemidi = 1`; a further pair `n2`, `v2` (`v2 >= 1`)
without a new status byte sets `pitch = freqvals[n2]` (running status). -/
theorem note_on_event (s : State) (n v : Nat) (hn : n ≤ 127) (hv1 : 1 ≤ v) (hv : v ≤ 127) :
    ∃ s3, receive s [0x90, n, v] = some s3
      ∧ s3.noteon = 1 ∧ freqvals[n]? = some s3.pitch ∧ s3.midilastnote = n ∧ s3.usemidi = 1
      ∧ ∀ n2 v2, n2 ≤ 127 → 1 ≤ v2 → v2 ≤ 127 →
          ∃ s5, receive s3 [n2, v2] = some s5
            ∧ freqvals[n2]? = some s5.pitch ∧ s5.noteon = 1 ∧ s5.midilastnote = n2
            ∧ s5.usemidi = 1 := by
  obtain ⟨p, hp, hr⟩ := receive_note_pair
    { s with usemidi := 1, midimode := MIDI_NOTE_ON, midibytesleft := 2 } n v hn hv1 hv rfl rfl
  have hrec : receive s [0x90, n, v] = some
      { ({ s with usemidi := 1, midimode := MIDI_NOTE_ON, midibytesleft := 2 } : State) with
        midibuffer0 := n, midibuffer1 := v, noteon := 1, pitch := p, midilastnote := n,
        midibytesleft := 2 } := by
    rw [receive, rx_note_on_status, Option.some_bind, hr]
  refine ⟨_, hrec, rfl, hp, rfl, rfl, ?_⟩
  intro n2 v2 hn2 hv21 hv2
  obtain ⟨p2, hp2, hr2⟩ := receive_note_pair
    { ({ s with usemidi := 1, midimode := MIDI_NOTE_ON, midibytesleft := 2 } : State) with
      midibuffer0 := n, midibuffer1 := v, noteon := 1, pitch := p, midilastnote := n,
      midibytesleft := 2 } n2 v2 hn2 hv21 hv2 rfl rfl
  exact ⟨_, hr2, hp2, rfl, rfl, rfl⟩

/-- Witness of C17: note 60 with velocity 100 from boot selects the period
2866. -/
theorem note_on_event_witness :
    ∃ s3, receive boot [0x90, 60, 100] = some s3 ∧ s3.noteon = 1 ∧ s3.pitch = 2866 := by
  obtain ⟨s3, h1, h2, h3, _⟩ := note_on_event boot 60 100 (by decide) (by decide) (by decide)
  refine ⟨s3, h1, h2, ?_⟩
  have h4 : freqvals[60]? = some 2866 := rfl
  rw [h4] at h3
  exact (Option.some.inj h3).symm

theorem rx_second_data_zero (s : State) (hl : s.midibytesleft = 1)
    (hm : s.midimode = MIDI_NOTE_ON) :
    USART_RX_vect s 0
      = some (if s.midibuffer1 = s.midilastnote then
          { s with midibuffer0 := s.midibuffer1, midibuffer1 := 0, noteon := 0,
                   midilastnote := 0xFF, midibytesleft := 2 }
        else { s with midibuffer0 := s.midibuffer1, midibuffer1 := 0, midibytesleft := 2 }) := by
  rw [rx_second_data_note_on s 0 (by decide) hl hm]
  by_cases h : s.midibuffer1 = s.midilastnote <;> simp [h]

/-- C18 (as amended): for every prior state and every note number `n` in
0..127, the bytes 0x90, `n`, 0 leave `noteon = 0` (and `midilastnote = 0xFF`)
when `n` equals the prior `midilastnote`, and leave `noteon` and
`midilastnote` unchanged otherwise. -/
theorem note_on_zero_velocity (s : State) (n : Nat) (hn : n ≤ 127) :
    ∃ s3, receive s [0x90, n, 0] = some s3
      ∧ s3.noteon = (if n = s.midilastnote then 0 else s.noteon)
      ∧ s3.midilastnote = (if n = s.midilastnote then 0xFF else s.midilastnote)
      ∧ (n = s.midilastnote → s3.noteon = 0) := by
  have h1 := rx_note_on_status s
  have h2 := rx_first_data
    { s with usemidi := 1, midimode := MIDI_NOTE_ON, midibytesleft := 2 } n hn rfl
  have h3 := rx_second_data_zero
    { ({ s with usemidi := 1, midimode := MIDI_NOTE_ON, midibytesleft := 2 } : State) with
      midibuffer0 := s.midibuffer1, midibuffer1 := n, midibytesleft := 1 } rfl rfl
  have hrec : receive s [0x90, n, 0] = USART_RX_vect
      { ({ s with usemidi := 1, midimode := MIDI_NOTE_ON, midibytesleft := 2 } : State) with
        midibuffer0 := s.midibuffer1, midibuffer1 := n, midibytesleft := 1 } 0 := by
    simp only [receive, h1, Option.some_bind, h2, Option.bind_some]
  rw [h3] at hrec
  refine ⟨_, hrec, ?_, ?_, ?_⟩
  · by_cases h : n = s.midilastnote <;> simp [h]
  · by_cases h : n = s.midilastnote <;> simp [h]
  · intro h; simp [h]

/-- Witness of C18 (amended): after note 60 was turned on, note-on 60 with
velocity 0 clears `noteon`. -/
theorem note_on_zero_velocity_witness :
    ∃ s3, receive { boot with midilastnote := 60 } [0x90, 60, 0] = some s3 ∧ s3.noteon = 0 := by
  obtain ⟨s3, h1, _, _, h4⟩ := note_on_zero_velocity { boot with midilastnote := 60 } 60
    (by decide)
  exact ⟨s3, h1, h4 rfl⟩

/-- Counterexample to C18 as stated: from boot (`noteon = 1`,
`midilastnote = 0xFF`) the bytes 0x90, 60, 0 leave `noteon = 1`. -/
theorem note_on_zero_velocity_counterexample :
    boot.noteon = 1
    ∧ (receive boot [0x90, 60, 0]).map (fun t => t.noteon) = some 1
    ∧ (receive boot [0x90, 60, 0]).map (fun t => t.noteon) ≠ some 0 := by
  decide

theorem rx_usemidi (s s1 : State) (b : Nat) (h : USART_RX_vect s b = some s1) :
    s1.usemidi = (if b % 256 ≥ 0x80 then 1 else s.usemidi) := by
  unfold USART_RX_vect at h
  dsimp only at h
  by_cases hb : b % 256 ≥ 0x80
  · rw [if_pos hb] at h ⊢
    split_ifs at h <;> (cases h; rfl)
  · rw [if_neg hb] at h ⊢
    split_ifs at h <;> (try split at h) <;> (first | (cases h; rfl) | cases h)

theorem rx_midibuffer (s : State) (b : Nat) (h0 : s.midibuffer0 < 128) (h1 : s.midibuffer1 < 128) :
    ∃ s1, USART_RX_vect s b = some s1 ∧ s1.midibuffer0 < 128 ∧ s1.midibuffer1 < 128 := by
  have hf : ∀ i, i < 128 → freqvals[i]? = some (freqvals.getD i 0) := by
    intro i hi
    have hlen : i < freqvals.length := by rw [freqvals_length]; exact hi
    rw [List.getElem?_eq_getElem hlen, List.getD_eq_getElem _ _ hlen]
  unfold USART_RX_vect
  dsimp only
  by_cases hb : b % 256 ≥ 0x80
  · rw [if_pos hb]
    split_ifs <;> exact ⟨_, rfl, h0, h1⟩
  · rw [if_neg hb]
    have hlt : b % 256 < 128 := by omega
    by_cases hl : s.midibytesleft > 0
    · simp only [if_pos hl, hf _ h1]
      split_ifs <;> exact ⟨_, rfl, h1, hlt⟩
    · simp only [if_neg hl, hf _ h0]
      split_ifs <;> exact ⟨_, rfl, h0, h1⟩

theorem receive_midibuffer (bytes : List Nat) :
    ∀ s : State, s.midibuffer0 < 128 → s.midibuffer1 < 128 →
      ∃ s1, receive s bytes = some s1 ∧ s1.midibuffer0 < 128 ∧ s1.midibuffer1 < 128 := by
  induction bytes with
  | nil => intro s h0 h1; exact ⟨s, rfl, h0, h1⟩
  | cons b bs ih =>
    intro s h0 h1
    obtain ⟨s1, e1, a0, a1⟩ := rx_midibuffer s b h0 h1
    obtain ⟨s2, e2, c0, c1⟩ := ih s1 a0 a1
    exact ⟨s2, by rw [receive, e1, Option.some_bind, e2], c0, c1⟩

/-- C20: starting from the boot state (`midibuffer = {0, 0}`), for every
finite sequence of received bytes every handler run stays inside the period
table (no `freqvals` read at an index outside 0..127 occurs) and both entries
of `midibuffer` are `< 128` afterwards. -/
theorem midibuffer_index_safe :
    (boot.midibuffer0 = 0 ∧ boot.midibuffer1 = 0)
    ∧ ∀ bytes : List Nat, ∃ s, receive boot bytes = some s
        ∧ s.midibuffer0 < 128 ∧ s.midibuffer1 < 128 :=
  ⟨⟨rfl, rfl⟩, fun bytes => receive_midibuffer bytes boot (by decide) (by decide)⟩

/-! ## The external-control latch -/

theorem update_synth_params_usemidi (s : State) :
    (update_synth_params s).usemidi = s.usemidi := by
  unfold update_synth_params
  dsimp only
  split <;> split <;> split <;> split <;> rfl

theorem update_synth_params_pitch (s : State) :
    (update_synth_params s).pitch = (if s.usemidi = 0 then (s.knobs PITCH_KNOB).val else s.pitch) := by
  unfold update_synth_params
  dsimp only
  split <;> split <;> split <;> split <;> rfl

theorem update_env_usemidi (s : State) : (update_env s).usemidi = s.usemidi := by
  unfold update_env
  dsimp only
  split <;> split <;> rfl

theorem update_pitch_usemidi (s : State) : (update_pitch s).usemidi = s.usemidi := by
  unfold update_pitch
  dsimp only
  split
  · split <;> rfl
  · rfl

theorem timer_tick_usemidi (s : State) : (TIMER1_COMPA_vect s).usemidi = s.usemidi := by
  have h : (TIMER1_COMPA_shiftout s).2.usemidi = s.usemidi := by
    unfold TIMER1_COMPA_shiftout lfsr_rand; split <;> rfl
  unfold TIMER1_COMPA_vect
  dsimp only
  split <;> exact h

theorem update_lfo_tail_usemidi (s : State) : (update_lfo_tail s).usemidi = s.usemidi := by
  unfold update_lfo_tail
  dsimp only
  split <;> split <;> rfl

theorem update_lfo_switch_usemidi (s s1 : State) (h : update_lfo_switch s = some s1) :
    s1.usemidi = s.usemidi := by
  unfold update_lfo_switch at h
  split at h
  all_goals (try dsimp only at h)
  all_goals (try split at h)
  all_goals (try split at h)
  all_goals (first | (cases h; rfl) | cases h)

theorem update_lfo_usemidi (s s2 : State) (h : update_lfo s = some s2) :
    s2.usemidi = s.usemidi := by
  unfold update_lfo at h
  rw [Option.map_eq_some'] at h
  obtain ⟨s1, h1, rfl⟩ := h
  rw [update_lfo_tail_usemidi, update_lfo_switch_usemidi s s1 h1]

/-- C16: the serial receive handler sets `usemidi` to 1 on every status byte
(`>= 0x80`); no operation (the handler on any byte, `update_synth_params`,
`update_lfo`, `update_env`, `update_pitch`, the audio tick) changes `usemidi`
from 1 back to 0; while `usemidi` is nonzero (in particular 1),
`update_synth_params` leaves `pitch` unchanged for every knob value, and while
`usemidi = 0` it sets `pitch` to the averaged pitch-knob value. -/
theorem external_control_latch :
    (∀ (s : State) (b : Nat), 0x80 ≤ b → b < 256 →
        ∃ s1, USART_RX_vect s b = some s1 ∧ s1.usemidi = 1)
    ∧ (∀ (s s1 : State) (b : Nat), s.usemidi = 1 → USART_RX_vect s b = some s1 →
        s1.usemidi = 1)
    ∧ (∀ s : State, (update_synth_params s).usemidi = s.usemidi
        ∧ (update_env s).usemidi = s.usemidi
        ∧ (update_pitch s).usemidi = s.usemidi
        ∧ (TIMER1_COMPA_vect s).usemidi = s.usemidi
        ∧ ∀ s2, update_lfo s = some s2 → s2.usemidi = s.usemidi)
    ∧ (∀ s : State, s.usemidi ≠ 0 → (update_synth_params s).pitch = s.pitch)
    ∧ (∀ s : State, s.usemidi = 0 →
        (update_synth_params s).pitch = (s.knobs PITCH_KNOB).val) := by
  refine ⟨?_, ?_, ?_, ?_, ?_⟩
  · intro s b h1 h2
    have hb : b % 256 = b := Nat.mod_eq_of_lt h2
    have hdef : ∃ s1, USART_RX_vect s b = some s1 := by
      unfold USART_RX_vect
      dsimp only
      rw [hb, if_pos h1]
      split_ifs <;> exact ⟨_, rfl⟩
    obtain ⟨s1, hs1⟩ := hdef
    refine ⟨s1, hs1, ?_⟩
    rw [rx_usemidi s s1 b hs1, hb, if_pos h1]
  · intro s s1 b hu h
    rw [rx_usemidi s s1 b h, hu]
    split <;> rfl
  · intro s
    exact ⟨update_synth_params_usemidi s, update_env_usemidi s, update_pitch_usemidi s,
      timer_tick_usemidi s, update_lfo_usemidi s⟩
  · intro s h
    rw [update_synth_params_pitch, if_neg h]
  · intro s h
    rw [update_synth_params_pitch, if_pos h]

/-- Witness of C16: the status byte 0x90 received at boot sets `usemidi`, and
the next `update_synth_params` keeps the pitch 400. -/
theorem external_control_latch_witness :
    (∃ s1, USART_RX_vect boot 0x90 = some s1 ∧ s1.usemidi = 1)
    ∧ (update_synth_params { boot with usemidi := 1 }).pitch = 400 :=
  ⟨external_control_latch.1 boot 0x90 (by decide) (by decide),
    external_control_latch.2.2.2.1 { boot with usemidi := 1 } (by decide)⟩

/-! ## The TIA waveform bank -/

theorem and_eight_ne_zero_iff (x : Nat) : (x &&& 8 ≠ 0) ↔ x.testBit 3 = true := by
  have h := Nat.testBit_and x 8 3
  have h8 : (8 : Nat) = 2 ^ 3 := rfl
  constructor
  · intro hne
    by_contra hb
    apply hne
    apply Nat.eq_of_testBit_eq
    intro i
    rw [Nat.testBit_and, Nat.zero_testBit, h8, Nat.testBit_two_pow]
    by_cases hi : 3 = i
    · subst hi; simp [hb]
    · simp [hi]
  · intro hb hz
    rw [hz, Nat.zero_testBit, hb] at h
    simp at h
    exact absurd h (by decide)

theorem selector_lt (w : Nat) : w &&& 0x07 < 8 :=
  Nat.and_lt_two_pow w (by decide : 7 < 2 ^ 3)

/-- C12: for every selector `w` and every register state, `tia_out(w)` applies
the rule at table index `w & 0x07`, an index inside the 8-entry table, so
`tia_out(w)` and `tia_out(w & 7)` have the same effect and result; it returns
1 if bit 3 of `sr4` is set after the update and 0 otherwise, always 0 or 1. -/
theorem tia_out_result (w : Nat) (t : TiaState) :
    tia_out w t = tia_out (w &&& 0x07) t
    ∧ (∃ f, wavefns[w &&& 0x07]? = some f ∧ (tia_out w t).2 = f t)
    ∧ (tia_out w t).1 = (if (tia_out w t).2.sr4.testBit 3 then 1 else 0)
    ∧ ((tia_out w t).1 = 0 ∨ (tia_out w t).1 = 1) := by
  have hidem : (w &&& 0x07) &&& 0x07 = w &&& 0x07 := by
    have h7 : (0x07 &&& 0x07 : Nat) = 0x07 := by decide
    rw [Nat.and_assoc, h7]
  have hbit : (tia_out w t).1 = (if (tia_out w t).2.sr4.testBit 3 then 1 else 0) := by
    unfold tia_out nz
    dsimp only
    by_cases hb : ((wavefns.getD (w &&& 0x07) id) t).sr4.testBit 3 = true
    · rw [if_pos ((and_eight_ne_zero_iff _).mpr hb), if_pos hb]
    · rw [if_neg (fun h => hb ((and_eight_ne_zero_iff _).mp h)), if_neg hb]
  refine ⟨?_, ?_, hbit, ?_⟩
  · unfold tia_out
    rw [hidem]
  · have hlen : w &&& 0x07 < wavefns.length := selector_lt w
    refine ⟨wavefns[w &&& 0x07], List.getElem?_eq_getElem hlen, ?_⟩
    unfold tia_out
    dsimp only
    rw [List.getD_eq_getElem _ _ hlen]
  · rw [hbit]
    split
    · right; rfl
    · left; rfl

/-- C13 (failing input): three calls `tia_out(7)` from the boot registers lead
to `sr4 = 1`, `sr5 = 9`, both within their widths; the fourth call runs
`div4_six`, which has no `& 0x0F`, and leaves `sr4 = 253`, not a 4-bit
value. -/
theorem tia_div6_exceeds_four_bits :
    tia_calls 7 3 tia_boot = ⟨1, 9⟩
    ∧ (tia_out 7 ⟨1, 9⟩).2 = ⟨253, 18⟩
    ∧ ¬ ((tia_out 7 ⟨1, 9⟩).2.sr4 < 16) := by
  decide

theorem tia_width_other_rules (w : Nat) (t : TiaState) (hw : w &&& 0x07 ≠ 7)
    (h4 : t.sr4 < 16) (h5 : t.sr5 < 32) :
    (tia_out w t).2.sr4 < 16 ∧ (tia_out w t).2.sr5 < 32 := by
  have m4 : ∀ x : Nat, x &&& 0x0F < 16 := fun x => Nat.and_lt_two_pow x (by decide : 15 < 2 ^ 4)
  have m5 : ∀ x : Nat, x &&& 0x1F < 32 := fun x => Nat.and_lt_two_pow x (by decide : 31 < 2 ^ 5)
  have hlt := selector_lt w
  have hcases : w &&& 0x07 = 0 ∨ w &&& 0x07 = 1 ∨ w &&& 0x07 = 2 ∨ w &&& 0x07 = 3
      ∨ w &&& 0x07 = 4 ∨ w &&& 0x07 = 5 ∨ w &&& 0x07 = 6 := by omega
  unfold tia_out
  dsimp only
  rcases hcases with h | h | h | h | h | h | h <;> rw [h]
  · exact ⟨m4 _, h5⟩
  · show (wave_poly5poly4 t).sr4 < 16 ∧ (wave_poly5poly4 t).sr5 < 32
    unfold wave_poly5poly4
    dsimp only
    split
    · exact ⟨m4 _, m5 _⟩
    · exact ⟨h4, m5 _⟩
  · exact ⟨m4 _, h5⟩
  · show (wave_div31div2 t).sr4 < 16 ∧ (wave_div31div2 t).sr5 < 32
    unfold wave_div31div2
    dsimp only
    split
    · exact ⟨m4 _, m5 _⟩
    · exact ⟨h4, m5 _⟩
  · show (wave_poly5div2 t).sr4 < 16 ∧ (wave_poly5div2 t).sr5 < 32
    unfold wave_poly5div2
    dsimp only
    split
    · exact ⟨m4 _, m5 _⟩
    · exact ⟨h4, m5 _⟩
  · exact ⟨m4 _, m5 _⟩
  · exact ⟨m4 _, m5 _⟩

/-! ## Maximal length of the joint poly9 rule -/

theorem tia_calls_poly9 (n : Nat) (t : TiaState) : tia_calls 5 n t = wave_poly9^[n] t := by
  have h : (fun u => (tia_out 5 u).2) = wave_poly9 := by
    funext u
    rfl
  unfold tia_calls
  rw [h]

theorem poly9_avoids_sound (seed : TiaState) :
    ∀ n cur c, poly9_avoids seed n cur = some c →
      c = wave_poly9^[n] cur ∧ ∀ k, k < n → wave_poly9^[k] cur ≠ seed := by
  intro n
  induction n with
  | zero =>
    intro cur c h
    simp only [poly9_avoids, Option.some.injEq] at h
    exact ⟨h.symm, fun k hk => absurd hk (Nat.not_lt_zero k)⟩
  | succ n ih =>
    intro cur c h
    simp only [poly9_avoids] at h
    split at h
    · cases h
    · rename_i hne
      obtain ⟨h1, h2⟩ := ih (wave_poly9 cur) c h
      refine ⟨by rw [Function.iterate_succ_apply]; exact h1, ?_⟩
      intro k hk
      cases k with
      | zero => exact hne
      | succ j =>
        rw [Function.iterate_succ_apply]
        exact h2 j (by omega)

theorem poly9_check : poly9_avoids tia_boot 510 (wave_poly9 tia_boot) = some tia_boot := by
  decide!

theorem poly9_period : wave_poly9^[511] tia_boot = tia_boot
    ∧ ∀ n, 1 ≤ n → n < 511 → wave_poly9^[n] tia_boot ≠ tia_boot := by
  obtain ⟨e, a⟩ := poly9_avoids_sound _ _ _ _ poly9_check
  constructor
  · rw [← Function.iterate_succ_apply] at e
    exact e.symm
  · intro n h1 h2
    obtain ⟨j, rfl⟩ : ∃ j, n = j + 1 := ⟨n - 1, by omega⟩
    rw [Function.iterate_succ_apply]
    exact a j (by omega)

theorem poly9_minimalPeriod : Function.minimalPeriod wave_poly9 tia_boot = 511 := by
  obtain ⟨hp, hm⟩ := poly9_period
  have hper : Function.IsPeriodicPt wave_poly9 511 tia_boot := hp
  have hle := Function.IsPeriodicPt.minimalPeriod_le (by decide) hper
  have hpos := Function.IsPeriodicPt.minimalPeriod_pos (by decide) hper
  by_contra hne
  exact hm _ hpos (by omega) Function.iterate_minimalPeriod

theorem poly9_width (t : TiaState) : (wave_poly9 t).sr4 < 16 ∧ (wave_poly9 t).sr5 < 32 :=
  ⟨Nat.and_lt_two_pow _ (by decide : 15 < 2 ^ 4), Nat.and_lt_two_pow _ (by decide : 31 < 2 ^ 5)⟩

theorem poly9_zero_preimage :
    ∀ a, a < 16 → ∀ b, b < 32 → wave_poly9 ⟨a, b⟩ = ⟨0, 0⟩ → a = 0 ∧ b = 0 := by
  decide!

theorem poly9_orbit_range (n : Nat) :
    (wave_poly9^[n] tia_boot).sr4 < 16 ∧ (wave_poly9^[n] tia_boot).sr5 < 32
    ∧ wave_poly9^[n] tia_boot ≠ ⟨0, 0⟩ := by
  induction n with
  | zero => decide
  | succ n ih =>
    rw [Function.iterate_succ_apply']
    obtain ⟨h4, h5, hne⟩ := ih
    refine ⟨(poly9_width _).1, (poly9_width _).2, ?_⟩
    intro hz
    apply hne
    have h := poly9_zero_preimage _ h4 _ h5 hz
    cases hs : wave_poly9^[n] tia_boot with
    | mk a b =>
      rw [hs] at h
      simp only at h
      rw [h.1, h.2]

theorem poly9_orbit_covers (a b : Nat) (ha : a < 16) (hb : b < 32) (hne : a ≠ 0 ∨ b ≠ 0) :
    ∃ k, k < 511 ∧ wave_poly9^[k] tia_boot = ⟨a, b⟩ := by
  let S : Finset TiaState :=
    ((Finset.range 16 ×ˢ Finset.range 32).erase (0, 0)).image (fun p => (⟨p.1, p.2⟩ : TiaState))
  have hScard : S.card = 511 := by
    have hinj : Function.Injective (fun p : Nat × Nat => (⟨p.1, p.2⟩ : TiaState)) := by
      intro p q h
      simp only [TiaState.mk.injEq] at h
      exact Prod.ext h.1 h.2
    rw [Finset.card_image_of_injective _ hinj, Finset.card_erase_of_mem (by simp),
      Finset.card_product, Finset.card_range, Finset.card_range]
  have hSmem : ∀ t : TiaState, t ∈ S ↔ t.sr4 < 16 ∧ t.sr5 < 32 ∧ t ≠ ⟨0, 0⟩ := by
    intro t
    cases t with
    | mk x y =>
      simp only [S, Finset.mem_image, Finset.mem_erase, Finset.mem_product, Finset.mem_range,
        Prod.exists, TiaState.mk.injEq, ne_eq, Prod.mk.injEq]
      constructor
      · rintro ⟨p, q, ⟨hpq, hp, hq⟩, rfl, rfl⟩
        exact ⟨hp, hq, hpq⟩
      · rintro ⟨hx, hy, hxy⟩
        exact ⟨x, y, ⟨hxy, hx, hy⟩, rfl, rfl⟩
  have hinj : Set.InjOn (fun k => wave_poly9^[k] tia_boot) (Finset.range 511 : Finset Nat) := by
    intro i hi j hj hij
    have hi2 : i < Function.minimalPeriod wave_poly9 tia_boot := by
      rw [poly9_minimalPeriod]; simpa using hi
    have hj2 : j < Function.minimalPeriod wave_poly9 tia_boot := by
      rw [poly9_minimalPeriod]; simpa using hj
    exact (Function.iterate_eq_iterate_iff_of_lt_minimalPeriod hi2 hj2).mp hij
  have hsub : (Finset.range 511).image (fun k => wave_poly9^[k] tia_boot) ⊆ S := by
    intro x hx
    obtain ⟨k, _, rfl⟩ := Finset.mem_image.mp hx
    exact (hSmem _).mpr (poly9_orbit_range k)
  have hcard : S.card ≤ ((Finset.range 511).image (fun k => wave_poly9^[k] tia_boot)).card := by
    rw [Finset.card_image_of_injOn hinj, hScard]
    simp
  have heq := Finset.eq_of_subset_of_card_le hsub hcard
  have ht : (⟨a, b⟩ : TiaState) ∈ (Finset.range 511).image (fun k => wave_poly9^[k] tia_boot) := by
    rw [heq, hSmem]
    refine ⟨ha, hb, ?_⟩
    simp only [ne_eq, TiaState.mk.injEq, not_and]
    intro h0
    rcases hne with h | h
    · exact absurd h0 h
    · exact h
  obtain ⟨k, hk, hkt⟩ := Finset.mem_image.mp ht
  exact ⟨k, by simpa using hk, hkt⟩

/-- C14: starting from the boot registers (`sr4 = 1`, `sr5 = 1`), repeated
calls `tia_out(5)` (`wave_poly9`) return the register pair to the boot state
for the first time after exactly 511 calls; within these 511 calls every
nonzero pair with a 4-bit `sr4` and a 5-bit `sr5` is visited exactly once, the
registers keep their widths, and the all-zero pair is never reached. -/
theorem poly9_maximal_length :
    (tia_calls 5 511 tia_boot = tia_boot
      ∧ ∀ n, 1 ≤ n → n < 511 → tia_calls 5 n tia_boot ≠ tia_boot)
    ∧ (∀ a b, a < 16 → b < 32 → (a ≠ 0 ∨ b ≠ 0) →
        ∃! k, k < 511 ∧ tia_calls 5 k tia_boot = ⟨a, b⟩)
    ∧ (∀ n, tia_calls 5 n tia_boot ≠ ⟨0, 0⟩)
    ∧ (∀ n, (tia_calls 5 n tia_boot).sr4 < 16 ∧ (tia_calls 5 n tia_boot).sr5 < 32) := by
  refine ⟨⟨?_, ?_⟩, ?_, ?_, ?_⟩
  · rw [tia_calls_poly9]; exact poly9_period.1
  · intro n h1 h2
    rw [tia_calls_poly9]; exact poly9_period.2 n h1 h2
  · intro a b ha hb hne
    obtain ⟨k, hk, hkt⟩ := poly9_orbit_covers a b ha hb hne
    refine ⟨k, ⟨hk, by rw [tia_calls_poly9]; exact hkt⟩, ?_⟩
    rintro j ⟨hj, hjt⟩
    rw [tia_calls_poly9] at hjt
    exact (Function.iterate_eq_iterate_iff_of_lt_minimalPeriod
      (by rw [poly9_minimalPeriod]; exact hj)
      (by rw [poly9_minimalPeriod]; exact hk)).mp (hjt.trans hkt.symm)
  · intro n
    rw [tia_calls_poly9]; exact (poly9_orbit_range n).2.2
  · intro n
    rw [tia_calls_poly9]; exact ⟨(poly9_orbit_range n).1, (poly9_orbit_range n).2.1⟩

/-- Witness of C14: the pair `sr4 = 15`, `sr5 = 31` is visited at exactly one
offset below 511. -/
theorem poly9_maximal_length_witness :
    ∃! k, k < 511 ∧ tia_calls 5 k tia_boot = ⟨15, 31⟩ :=
  poly9_maximal_length.2.1 15 31 (by decide) (by decide) (Or.inl (by decide))

end OneBitSynth
